import Mathlib

/-!
Verification development for the exodia attribute-validation library.

Shallow embedding of `src/exodia/validators.py`, `src/exodia/fields.py` and
`src/exodia/bases.py`.  Python values are modelled by `Value`; Python
exceptions are split into `ExErr` (the library's own `ExodiaException`,
whose payload is either a message or a list of child exceptions) and
`PyErr` (built-in exceptions such as `TypeError`, which the library never
catches).  Error-message *text* is abstracted: a leaf error records which
validator failed and the field name it was given, which is what the
formatted message is built from.  The `instance` argument threaded through
the Python validators is consumed only by the `Ref` validator, which none
of the verified claims exercise; it is omitted here, as are the `Function`,
`Ref` and `Any` validators.
-/

namespace Exodia

/-- Python runtime types that occur as `of_type` entries in the source
(`str`, `int`, `list`, `Mapping`, `date`, `datetime`, `NoneType`,
`Callable`, `object`). -/
inductive Ty where
  | str | int | listT | mappingT | dateT | datetimeT | noneType | callableT | obj
  deriving DecidableEq, Repr

/-- Python values the library manipulates: `None`, ints, strings, lists,
dicts (modelled as association lists with the source's unique-key usage),
`datetime.date` and `datetime.datetime` objects. -/
inductive Value where
  | none
  | int (n : Int)
  | str (s : String)
  | list (xs : List Value)
  | mapping (entries : List (String × Value))
  | date (y m d : Nat)
  | datetime (y m d hh mi ss : Nat)
  deriving Repr

/-- Built-in (non-`ExodiaException`) Python exceptions reachable in the
modelled code paths. -/
inductive PyErr where
  | typeError | attributeError | valueError | zeroDivisionError
  deriving DecidableEq, Repr

/-- `isinstance(v, t)` for a single type.  `datetime` is a subclass of
`date` in Python, and everything is an instance of `object`. -/
def isinstance : Value → Ty → Bool
  | _, .obj => true
  | .none, .noneType => true
  | .str _, .str => true
  | .int _, .int => true
  | .list _, .listT => true
  | .mapping _, .mappingT => true
  | .date _ _ _, .dateT => true
  | .datetime _ _ _ _ _ _, .dateT => true
  | .datetime _ _ _ _ _ _, .datetimeT => true
  | _, _ => false

/-- `isinstance(value, tuple(ts))` as used by `Type.validate`. -/
def isinstanceL (v : Value) (ts : List Ty) : Bool :=
  ts.any (isinstance v)

/-- Python truthiness of a `Value` (used by `data.get(key) if data else None`). -/
def truthy : Value → Bool
  | .none => false
  | .int n => n != 0
  | .str s => !s.isEmpty
  | .list xs => !xs.isEmpty
  | .mapping es => !es.isEmpty
  | .date _ _ _ => true
  | .datetime _ _ _ _ _ _ => true

/-- `len(v)`: defined for strings, lists and dicts, `TypeError` otherwise. -/
def pyLen : Value → Except PyErr Int
  | .str s => .ok s.length
  | .list xs => .ok xs.length
  | .mapping es => .ok es.length
  | _ => .error .typeError

/-- First value bound to `k` in an association list (dict lookup; source
dicts never hold duplicate keys). -/
def lookupStr {α : Type} (xs : List (String × α)) (k : String) : Option α :=
  match xs with
  | [] => Option.none
  | (k', v) :: rest => if k' = k then some v else lookupStr rest k

/-- `data.get(key)` — `AttributeError` when `data` is not a dict, `None`
for a missing key. -/
def vget (data : Value) (key : String) : Except PyErr Value :=
  match data with
  | .mapping es => .ok ((lookupStr es key).getD .none)
  | _ => .error .attributeError

mutual

/-- Python `==` between values: `False` across types, structural within a
type; dict equality is key-based and order-insensitive.  It never raises. -/
def pyEq : Value → Value → Bool
  | .none, .none => true
  | .int a, .int b => a == b
  | .str a, .str b => a == b
  | .date y m d, .date y' m' d' => y == y' && m == m' && d == d'
  | .datetime y m d h i s, .datetime y' m' d' h' i' s' =>
      y == y' && m == m' && d == d' && h == h' && i == i' && s == s'
  | .list xs, .list ys => pyEqList xs ys
  | .mapping xs, .mapping ys => xs.length == ys.length && pyEqEntries xs ys
  | _, _ => false
termination_by a b => sizeOf a + sizeOf b
decreasing_by all_goals (simp_wf; try omega)

def pyEqList : List Value → List Value → Bool
  | [], [] => true
  | x :: xs, y :: ys => pyEq x y && pyEqList xs ys
  | _, _ => false
termination_by xs ys => sizeOf xs + sizeOf ys
decreasing_by all_goals (simp_wf; try omega)

def pyEqEntries : List (String × Value) → List (String × Value) → Bool
  | [], _ => true
  | (k, v) :: rest, ys => pyEqFind k v ys && pyEqEntries rest ys
termination_by xs ys => sizeOf xs + sizeOf ys
decreasing_by all_goals (simp_wf; try omega)

def pyEqFind : String → Value → List (String × Value) → Bool
  | _, _, [] => false
  | k, v, (k', v') :: rest => if k = k' then pyEq v v' else pyEqFind k v rest
termination_by _ v ys => sizeOf v + sizeOf ys
decreasing_by all_goals (simp_wf; try omega)

end

/-- Python rich comparison (`<`, `<=`, `>`): defined within ints, strings,
dates, datetimes and lists; `TypeError` across types (including the
`date` / `datetime` pair, which Python refuses to order). -/
def pyCmp : Value → Value → Except PyErr Ordering
  | .int a, .int b => .ok (compare a b)
  | .str a, .str b => .ok (compare a b)
  | .date y m d, .date y' m' d' =>
      .ok ((compare y y').then ((compare m m').then (compare d d')))
  | .datetime y m d h i s, .datetime y' m' d' h' i' s' =>
      .ok ((compare y y').then ((compare m m').then ((compare d d').then
        ((compare h h').then ((compare i i').then (compare s s'))))))
  | .list [], .list [] => .ok .eq
  | .list [], .list (_ :: _) => .ok .lt
  | .list (_ :: _), .list [] => .ok .gt
  | .list (x :: xs), .list (y :: ys) =>
      if pyEq x y then pyCmp (.list xs) (.list ys)
      else do
        let o ← pyCmp x y
        .ok o
  | _, _ => .error .typeError
termination_by a b => sizeOf a + sizeOf b
decreasing_by all_goals (simp_wf; try omega)

def pyLt (a b : Value) : Except PyErr Bool := do
  let o ← pyCmp a b
  .ok (o == .lt)

def pyGt (a b : Value) : Except PyErr Bool := do
  let o ← pyCmp a b
  .ok (o == .gt)

def pyLe (a b : Value) : Except PyErr Bool := do
  let o ← pyCmp a b
  .ok (o != .gt)

/-- Split a character list at every occurrence of `c` (the behaviour of
`str.split` on a one-character separator). -/
def splitOnChar (c : Char) : List Char → List (List Char)
  | [] => [[]]
  | x :: rest =>
      match splitOnChar c rest with
      | h :: t => if x = c then [] :: h :: t else (x :: h) :: t
      | [] => if x = c then [[], []] else [[x]]

/-- Numeric value of a decimal-digit character sequence. -/
def digitsToNat (cs : List Char) : Nat :=
  cs.foldl (fun a c => a * 10 + (c.toNat - 48)) 0

/-- `date.fromisoformat` input parsing: a zero-padded `YYYY-MM-DD` string.
Digit/shape/range checks are modelled; the exact-calendar day-of-month
bound of the Python implementation is approximated by `1..31`, which is
indistinguishable on every input the claims evaluate. -/
def parseDateChars (cs : List Char) : Option (Nat × Nat × Nat) :=
  match splitOnChar '-' cs with
  | [ys, ms, ds] =>
      if ys.length = 4 && ms.length = 2 && ds.length = 2 &&
         ys.all Char.isDigit && ms.all Char.isDigit && ds.all Char.isDigit then
        let y := digitsToNat ys
        let m := digitsToNat ms
        let d := digitsToNat ds
        if 1 ≤ y && 1 ≤ m && m ≤ 12 && 1 ≤ d && d ≤ 31 then some (y, m, d)
        else Option.none
      else Option.none
  | _ => Option.none

def parseDateStr (s : String) : Option (Nat × Nat × Nat) :=
  parseDateChars s.toList

/-- `datetime.date.fromisoformat(v)`: `TypeError` unless `v` is a string,
`ValueError` on a malformed string (`Date.prepare_for_validation` and
`Date.to_repr` call this on the *raw* value). -/
def dateFromIso : Value → Except PyErr Value
  | .str s =>
      match parseDateStr s with
      | some (y, m, d) => .ok (.date y m d)
      | _ => .error .valueError
  | _ => .error .typeError

/-- `HH:MM:SS` time component of an isoformat datetime string. -/
def parseTimeChars (cs : List Char) : Option (Nat × Nat × Nat) :=
  match splitOnChar ':' cs with
  | [hs, ms, ss] =>
      if hs.length = 2 && ms.length = 2 && ss.length = 2 &&
         hs.all Char.isDigit && ms.all Char.isDigit && ss.all Char.isDigit then
        let h := digitsToNat hs
        let m := digitsToNat ms
        let sec := digitsToNat ss
        if h ≤ 23 && m ≤ 59 && sec ≤ 59 then some (h, m, sec) else Option.none
      else Option.none
  | _ => Option.none

/-- `datetime.datetime.fromisoformat(v)` (`DateTime.prepare_for_validation`):
a date part, optionally followed by a one-character separator and a time
part.  Fractional seconds and timezone offsets are not modelled (no claim
evaluates them). -/
def datetimeFromIso : Value → Except PyErr Value
  | .str s =>
      let cs := s.toList
      match parseDateChars (cs.take 10) with
      | some (y, m, d) =>
          if cs.length = 10 then .ok (.datetime y m d 0 0 0)
          else
            match parseTimeChars (cs.drop 11) with
            | some (h, mi, sec) => .ok (.datetime y m d h mi sec)
            | _ => .error .valueError
      | _ => .error .valueError
  | _ => .error .typeError

/-- The contents an `ExodiaException` leaf is built from: which validator
failed and for which field-path (`Validator.fail` formats its message from
exactly these plus the validator's parameters), a duplicate-validator
definition-time error (`Field._add_validator`), an unexpected-attribute
error (`Base._validate_kwargs`), or an assertion from the whole-object
`validate` hook. -/
inductive ErrMsg where
  | validatorFailed (kind : String) (fieldName : Option String)
  | duplicateValidator (kind : String)
  | unexpectedAttribute (attr : String)
  | hookAssertion
  deriving DecidableEq, Repr

/-- `ExodiaException`: its payload is either one message or a list of
child exceptions (`Field._run_validators` raises
`ExodiaException(errors)`). -/
inductive ExErr where
  | leaf (m : ErrMsg)
  | agg (errors : List ExErr)
  deriving Repr

/-- Any exception escaping a library call: an `ExodiaException` or an
uncaught Python built-in. -/
inductive Outcome where
  | exodia (e : ExErr)
  | py (e : PyErr)
  deriving Repr

/-- The concrete `Field` subclasses of `src/exodia/fields.py`. -/
inductive FieldKind where
  | string | integer | listF | func | exodiaF | date | datetime
  deriving DecidableEq, Repr

/-- The `of_type` class attribute of each `Field` subclass (normalised to a
list the way `Type.__init__` does). -/
def ofTypeList : FieldKind → List Ty
  | .string => [.str]
  | .integer => [.int]
  | .listF => [.listT]
  | .func => [.callableT]
  | .exodiaF => [.mappingT]
  | .date => [.str, .dateT]
  | .datetime => [.str, .datetimeT]

mutual

/-- The validator classes of `src/exodia/validators.py` (each constructor
carries the constructor parameters of its class).  `exodia` holds a
schema mapping field names to `Field` objects — the shape every use in the
source builds (`fields.Exodia` wraps a mapping of Fields). -/
inductive Validator where
  | required
  | optional
  | length (length : Int)
  | notEmpty
  | between (min max : Value)
  | typeIs (ts : List Ty)
  | multipleOf (n : Int)
  | enum (options : List Value)
  | minLength (length : Int)
  | maxLength (length : Int)
  | lessThan (v : Value)
  | equal (v : Value)
  | greaterThan (v : Value)
  | exodia (schema : List (String × Field))
  | stack (validators : List Validator)

/-- A `Field`: its subclass (fixing `of_type`, `prepare_for_validation`
and `to_repr`) plus its current `_validators` list. -/
inductive Field where
  | mk (kind : FieldKind) (validators : List Validator)

end

def Field.kind : Field → FieldKind
  | .mk k _ => k

def Field.validators : Field → List Validator
  | .mk _ vs => vs

/-- `self.__class__.__name__` of a validator. -/
def kindName : Validator → String
  | .required => "Required"
  | .optional => "Optional"
  | .length _ => "Length"
  | .notEmpty => "NotEmpty"
  | .between _ _ => "Between"
  | .typeIs _ => "Type"
  | .multipleOf _ => "MultipleOf"
  | .enum _ => "Enum"
  | .minLength _ => "MinLength"
  | .maxLength _ => "MaxLength"
  | .lessThan _ => "LessThan"
  | .equal _ => "Equal"
  | .greaterThan _ => "GreaterThan"
  | .exodia _ => "Exodia"
  | .stack _ => "Stack"

/-- The validators carrying a `length` attribute (`Length`, `MinLength`,
`MaxLength`) — what `Length.__eq__`'s `v.length` access can read. -/
def lengthAttr : Validator → Option Int
  | .length n => some n
  | .minLength n => some n
  | .maxLength n => some n
  | _ => Option.none

/-- `a == b` between validators (`a.__eq__(b)`).
`Validator.__eq__` is `isinstance(v, self.__class__)` — kind-only.
`MultipleOf.__eq__` additionally compares `n`.
`Length.__eq__` is `object.__eq__(self, v) and v.length == self.length`:
for distinct objects `object.__eq__` yields the truthy `NotImplemented`,
so the result is `v.length == self.length` with *no* kind check, raising
`AttributeError` when `v` has no `length` attribute. -/
def veq (a b : Validator) : Except PyErr Bool :=
  match a with
  | .length n =>
      match lengthAttr b with
      | some m => .ok (m == n)
      | _ => .error .attributeError
  | .multipleOf n =>
      match b with
      | .multipleOf m => .ok (n == m)
      | _ => .ok false
  | _ => .ok (kindName a == kindName b)

/-- The duplicate scan of `Field._add_validator`: raises an
`ExodiaException` naming `v`'s class on the first stored validator equal
to `v` (and propagates any exception `==` itself raises). -/
def checkDup (vs : List Validator) (v : Validator) : Except Outcome Unit :=
  match vs with
  | [] => .ok ()
  | x :: rest =>
      match veq x v with
      | .error e => .error (.py e)
      | .ok true => .error (.exodia (.leaf (.duplicateValidator (kindName v))))
      | .ok false => checkDup rest v

/-- `Field._add_validator`: duplicate scan, then append. -/
def addValidator (vs : List Validator) (v : Validator) : Except Outcome (List Validator) := do
  checkDup vs v
  pure (vs ++ [v])

/-- `Field._pop_validator`: remove and return the first stored validator
equal to `v` (`None` when no match; `==` exceptions propagate). -/
def popValidator (vs : List Validator) (v : Validator) :
    Except PyErr (Option Validator × List Validator) :=
  match vs with
  | [] => .ok (Option.none, [])
  | x :: rest =>
      match veq x v with
      | .error e => .error e
      | .ok true => .ok (some x, rest)
      | .ok false => do
          let (p, r) ← popValidator rest v
          .ok (p, x :: r)

/-- `"{}.".format(field_name) + key` — the dot-joined field path built by
`Exodia._recursive_validate_schema` (Python formats `None` as `"None"`). -/
def dotJoin (fn : Option String) (key : String) : String :=
  (match fn with | some s => s | _ => "None") ++ "." ++ key

mutual

/-- `validator.validate(value, field_name, instance)` for every class that
inherits `Validator.__call__`.  The base class's `validate` returns
`False`; `Exodia` overrides `__call__` instead of `validate`, so its
inherited `validate` is dead code (kept as `false` here too). -/
def vvalidate (v : Validator) (value : Value) (fn : Option String) : Except PyErr Bool :=
  match v with
  | .required => .ok (match value with | .none => false | _ => true)
  | .optional => .ok true
  | .length n => do
      let l ← pyLen value
      .ok (l == n)
  | .notEmpty => do
      let l ← pyLen value
      .ok (l == 0)
  | .between lo hi => do
      let b1 ← pyLe lo value
      if b1 then pyLe value hi else .ok false
  | .typeIs ts => .ok (isinstanceL value ts)
  | .multipleOf n =>
      match value with
      | .int m => if n == 0 then .error .zeroDivisionError else .ok (m % n == 0)
      | _ => .error .typeError
  | .enum options => .ok (options.any (fun o => pyEq o value))
  | .minLength n => do
      let l ← pyLen value
      .ok (n ≤ l)
  | .maxLength n => do
      let l ← pyLen value
      .ok (l ≤ n)
  | .lessThan w => pyLt value w
  | .equal w => .ok (pyEq value w)
  | .greaterThan w => pyGt value w
  | .exodia _ => .ok false
  | .stack vs => stackLoop vs value fn
termination_by (sizeOf v, 0)

/-- `validator(value, field_name, instance)`: `Validator.__call__` raises a
single `ExodiaException` leaf when `validate` is falsy; `Exodia.__call__`
is overridden to run the recursive schema walk instead. -/
def Validator.call (v : Validator) (value : Value) (fn : Option String) : Except Outcome Unit :=
  match v with
  | .exodia schema => recurseSchema schema value fn
  | v =>
      match vvalidate v value fn with
      | .error p => .error (.py p)
      | .ok true => .ok ()
      | .ok false => .error (.exodia (.leaf (.validatorFailed (kindName v) fn)))
termination_by (sizeOf v, 1)

/-- The loop of `Stack.validate`: each sub-validator's `ExodiaException`
short-circuits to `False`; any other exception propagates. -/
def stackLoop (vs : List Validator) (value : Value) (fn : Option String) : Except PyErr Bool :=
  match vs with
  | [] => .ok true
  | v :: rest =>
      match Validator.call v value fn with
      | .ok () => stackLoop rest value fn
      | .error (.exodia _) => .ok false
      | .error (.py p) => .error p
termination_by (sizeOf vs, 2)

/-- `Exodia._recursive_validate_schema` over a schema whose values are
`Field` objects — the shape every construction in the source builds (the
`isinstance(v, self.__class__)` branch only fires for a raw
`validators.Exodia` stored as a schema value, which never happens: nested
schemas are nested `fields.Exodia` *Fields*, handled by the `else`
branch).  For each declared key: look the key up in the data (`None` when
the data is falsy or the key is missing) and run the field's chain under
the dot-joined path.  The first field whose chain raises aborts the walk
and the exception propagates. -/
def recurseSchema (schema : List (String × Field)) (data : Value) (fn : Option String) :
    Except Outcome Unit :=
  match schema with
  | [] => .ok ()
  | (key, .mk _ fvs) :: rest => do
      let item ← if truthy data then (vget data key).mapError Outcome.py else pure Value.none
      runValidatorsAux [] fvs item (some (dotJoin fn key))
      recurseSchema rest data fn
termination_by (sizeOf schema, 2)

/-- The loop of `Field._run_validators` with the errors collected so far:
every validator runs; each `ExodiaException` is appended to `errors`; any
other exception propagates at once; a non-empty `errors` is re-raised as
one aggregate `ExodiaException(errors)`. -/
def runValidatorsAux (errs : List ExErr) (vs : List Validator) (value : Value)
    (fn : Option String) : Except Outcome Unit :=
  match vs with
  | [] => if errs.isEmpty then .ok () else .error (.exodia (.agg errs))
  | v :: rest =>
      match Validator.call v value fn with
      | .ok () => runValidatorsAux errs rest value fn
      | .error (.exodia e) => runValidatorsAux (errs ++ [e]) rest value fn
      | .error (.py p) => .error (.py p)
termination_by (sizeOf vs, 0)

end

/-- `Field._run_validators(value, field_name)`. -/
def runValidators (vs : List Validator) (value : Value) (fn : Option String) :
    Except Outcome Unit :=
  runValidatorsAux [] vs value fn

/-- `prepare_for_validation`: identity for every subclass except `Date`
and `DateTime`, which parse the raw value with `fromisoformat`. -/
def Field.prepare (f : Field) (v : Value) : Except PyErr Value :=
  match f.kind with
  | .date => dateFromIso v
  | .datetime => datetimeFromIso v
  | _ => .ok v

/-- `to_repr`: identity for every subclass except `Date`, which re-parses
the *raw* value. -/
def Field.toRepr (f : Field) (v : Value) : Except PyErr Value :=
  match f.kind with
  | .date => dateFromIso v
  | _ => .ok v

/-- `Field.validate(value)`: run the chain on the prepared value (with no
field name and no instance) and return the canonical representation. -/
def Field.validate (f : Field) (value : Value) : Except Outcome Value := do
  let p ← (f.prepare value).mapError Outcome.py
  runValidators f.validators p Option.none
  (f.toRepr value).mapError Outcome.py

/-- `Field.__set__`: run the chain on the prepared value under the field's
bound name, then store the canonical representation on the instance; the
stored value is returned. -/
def Field.setAttr (f : Field) (name : String) (value : Value) : Except Outcome Value := do
  let p ← (f.prepare value).mapError Outcome.py
  runValidators f.validators p (some name)
  (f.toRepr value).mapError Outcome.py

/-- `Field.__init__` + `reset` for the subclasses whose constructor adds
no extra validator (`String()`/`List()` with `length=None`, `Integer()`,
`Func()`, `Date()`, `DateTime()`): the chain is seeded with the single
type validator for `of_type`. -/
def mkBase (kind : FieldKind) : Field :=
  .mk kind [.typeIs (ofTypeList kind)]

/-- `fields.Exodia.__init__(schema)`: seed with the type validator for
`Mapping`, then `_add_validator(validators.Exodia(schema))`. -/
def exodiaMake (schema : List (String × Field)) : Except Outcome Field := do
  let vs ← addValidator [.typeIs (ofTypeList .exodiaF)] (.exodia schema)
  pure (.mk .exodiaF vs)

/-- `Field.optional()`: pop `Required`, add `Optional`, pop the current
type validator and re-add it merged with `Type(None)` (widened to accept
`NoneType`).  A missing type validator would make Python call
`None.merge`, an `AttributeError`. -/
def Field.optional (f : Field) : Except Outcome Field := do
  let (_, vs1) ← (popValidator f.validators .required).mapError Outcome.py
  let vs2 ← addValidator vs1 .optional
  let (tv, vs3) ← (popValidator vs2 (.typeIs (ofTypeList f.kind))).mapError Outcome.py
  match tv with
  | some (.typeIs ts) => do
      let vs4 ← addValidator vs3 (.typeIs (ts ++ [.noneType]))
      pure (.mk f.kind vs4)
  | some _ => .error (.py .attributeError)
  | _ => .error (.py .attributeError)

/-- `Field.required()`: pop `Optional`, add `Required`, pop the current
type validator and add a freshly constructed one for the declared
`of_type` only.  A missing type validator would make Python call
`NoneType(of_type)`, a `TypeError`. -/
def Field.required (f : Field) : Except Outcome Field := do
  let (_, vs1) ← (popValidator f.validators .optional).mapError Outcome.py
  let vs2 ← addValidator vs1 .required
  let (tv, vs3) ← (popValidator vs2 (.typeIs (ofTypeList f.kind))).mapError Outcome.py
  match tv with
  | some _ => do
      let vs4 ← addValidator vs3 (.typeIs (ofTypeList f.kind))
      pure (.mk f.kind vs4)
  | _ => .error (.py .typeError)

/-- `Integer.min(value)`: installs `Stack([GreaterThan(value), Equal(value)])`. -/
def Field.intMin (f : Field) (value : Int) : Except Outcome Field := do
  let vs ← addValidator f.validators (.stack [.greaterThan (.int value), .equal (.int value)])
  pure (.mk f.kind vs)

/-- `String.not_empty()`: installs `NotEmpty()`. -/
def Field.notEmptyF (f : Field) : Except Outcome Field := do
  let vs ← addValidator f.validators .notEmpty
  pure (.mk f.kind vs)

/-- What the overridable whole-object `Base.validate(attrs)` hook can do:
succeed, fail an `assert` (caught and turned into an `ExodiaException`),
raise an `ExodiaException` (caught and collected), or raise some other
Python exception (propagates). -/
inductive HookErr where
  | assertionFailed
  | exodiaE (e : ExErr)
  | pyE (p : PyErr)

/-- One iteration of the per-field loop of `Base._validate_kwargs`, with
the instance `__dict__` threaded through.  For each declared field:
`validate_field` runs the chain on the *raw* supplied value (missing →
`None`) and its `ExodiaException` is collected; then — outside the
`try` — `setattr(self, key, value)` re-runs the chain via `Field.__set__`
and stores the canonical value, so any exception it raises escapes the
loop with the instance left as already mutated. -/
def fieldLoop (kwargs : List (String × Value)) (inst : List (String × Value))
    (errs : List ExErr) (fields : List (String × Field)) :
    List (String × Value) × Except Outcome (List ExErr) :=
  match fields with
  | [] => (inst, .ok errs)
  | (key, fld) :: rest =>
      let value := (lookupStr kwargs key).getD .none
      match runValidators fld.validators value (some key) with
      | .error (.py p) => (inst, .error (.py p))
      | .error (.exodia e) =>
          match Field.setAttr fld key value with
          | .error o => (inst, .error o)
          | .ok stored => fieldLoop kwargs (inst ++ [(key, stored)]) (errs ++ [e]) rest
      | .ok _ =>
          match Field.setAttr fld key value with
          | .error o => (inst, .error o)
          | .ok stored => fieldLoop kwargs (inst ++ [(key, stored)]) errs rest

/-- The tail of `Base._validate_kwargs` after the per-field loop: run the
whole-object hook on the raw supplied values keyed by the declared
fields (`valid_attrs`), folding an `assert` failure or `ExodiaException`
into the collected errors and propagating anything else; then raise the
collected errors, if any, as one aggregate. -/
def hookStep (hook : List (String × Value) → Except HookErr Unit)
    (validAttrs : List (String × Value)) (inst : List (String × Value))
    (errs1 : List ExErr) : List (String × Value) × Except Outcome Unit :=
  match hook validAttrs with
  | .error (.pyE p) => (inst, .error (.py p))
  | .error .assertionFailed =>
      (inst, .error (.exodia (.agg (errs1 ++ [.leaf .hookAssertion]))))
  | .error (.exodiaE e) => (inst, .error (.exodia (.agg (errs1 ++ [e]))))
  | .ok _ =>
      if errs1.isEmpty then (inst, .ok ()) else (inst, .error (.exodia (.agg errs1)))

/-- `Base._validate_kwargs(kwargs)` for a schema declaring `fields` (in
class-dict order) and a whole-object hook.  Returns the instance
`__dict__` as mutated by the run together with the outcome: unknown
names become collected `unexpected attribute` errors; the per-field loop
runs (see `fieldLoop`); finally `hookStep` runs the hook and raises the
aggregate. -/
def validateKwargs (fields : List (String × Field))
    (hook : List (String × Value) → Except HookErr Unit)
    (kwargs : List (String × Value)) :
    List (String × Value) × Except Outcome Unit :=
  let errs0 := kwargs.filterMap fun kv =>
    if (lookupStr fields kv.1).isSome then Option.none
    else some (ExErr.leaf (.unexpectedAttribute kv.1))
  match fieldLoop kwargs [] errs0 fields with
  | (inst, .error o) => (inst, .error o)
  | (inst, .ok errs1) =>
      hookStep hook (fields.map fun kf => (kf.1, (lookupStr kwargs kf.1).getD Value.none))
        inst errs1

/-! ### Derived notions used by the statements -/

/-- The `ExodiaException` raised by a validator call, if that is what it
raised. -/
def exoErrOf : Except Outcome Unit → Option ExErr
  | .error (.exodia e) => some e
  | _ => Option.none

/-- The ordered list of per-validator `ExodiaException`s a chain run
collects on `value`. -/
def chainErrors (vs : List Validator) (value : Value) (fn : Option String) : List ExErr :=
  vs.filterMap fun v => exoErrOf (Validator.call v value fn)

/-- First validator of the given class name in a chain. -/
def findFirstKind (k : String) : List Validator → Option Validator
  | [] => Option.none
  | x :: rest => if kindName x == k then some x else findFirstKind k rest

/-- A chain with its first validator of the given class name removed
(identity when there is none). -/
def removeFirstKind (k : String) : List Validator → List Validator
  | [] => []
  | x :: rest => if kindName x == k then rest else x :: removeFirstKind k rest

/-- Whether a chain holds a validator of the given class name. -/
def hasKind (k : String) (vs : List Validator) : Bool :=
  vs.any fun x => kindName x == k

/-- A chain as `_add_validator` maintains it: no stored validator compares
equal (without raising) to a later one — the invariant of every chain
built through the fluent API. -/
def WfChain (vs : List Validator) : Prop :=
  List.Pairwise (fun a b => veq a b = .ok false) vs

/-- Targets of the pop/add calls in `required()` / `optional()`. -/
def PlainTarget (v : Validator) : Prop :=
  v = .required ∨ v = .optional ∨ ∃ ts, v = .typeIs ts

/-- No `Length` validator in the chain (the one whose `__eq__` can raise). -/
def NoLen (vs : List Validator) : Prop :=
  ∀ x ∈ vs, ∀ n, x ≠ .length n

/-- The field kinds whose `prepare_for_validation` and `to_repr` are the
identity and whose constructor installs only the type validator
(`String()`, `Integer()`, `List()`, `Func()`). -/
def plainKind (kind : FieldKind) : Prop :=
  kind = .string ∨ kind = .integer ∨ kind = .listF ∨ kind = .func

/-- `Integer().required()` — the result of the fluent calls, used by the
`Base`-construction claims. -/
def requiredInteger : Field := .mk .integer [.required, .typeIs [.int]]

/-- A whole-object `validate` hook that does nothing (the `Base` default). -/
def trivialHook : List (String × Value) → Except HookErr Unit := fun _ => .ok ()

/-- `String().required()` — the `name` entry of the nested-schema claim. -/
def nameField : Field := .mk .string [.required, .typeIs [.str]]

/-- `Integer().optional()` — the `age` entry of the nested-schema claim. -/
def ageField : Field := .mk .integer [.optional, .typeIs [.int, .noneType]]

/-- The schema `{name: required string, age: optional integer}`. -/
def schemaC8 : List (String × Field) := [("name", nameField), ("age", ageField)]

/-- `Exodia({name: ..., age: ...})` — the nested-schema field. -/
def objField : Field := .mk .exodiaF [.typeIs [.mappingT], .exodia schemaC8]

/-- `Integer().min(b)` — type validator plus the
`Stack([GreaterThan(b), Equal(b)])` that `Integer.min` installs. -/
def intMinField (b : Int) : Field :=
  .mk .integer [.typeIs [.int], .stack [.greaterThan (.int b), .equal (.int b)]]

/-- `String().not_empty()`. -/
def notEmptyString : Field := .mk .string [.typeIs [.str], .notEmpty]

/-! ### Claim C1 -/

/-- Claim C1 (code behaviour at the failing input).  Constructing a
`Base` subclass declaring two required integer fields with `a=None`
supplied: `validate_field` collects the per-field aggregate for `a`, but
the unprotected `setattr` re-runs `a`'s chain and its `ExodiaException`
escapes `_validate_kwargs` immediately — the raised error is `a`'s
two-leaf aggregate only, field `b` (whose chain, as the last conjunct
shows, also fails on its absent value) is never reached, and nothing was
stored.  This contradicts the claim that all failures of the pass are
collected into one top-level aggregate. -/
theorem c1_field_failure_escapes_mid_pass :
    Field.required (mkBase .integer) = .ok requiredInteger ∧
    validateKwargs [("a", requiredInteger), ("b", requiredInteger)] trivialHook
        [("a", .none)] =
      ([], .error (.exodia (.agg [.leaf (.validatorFailed "Required" (some "a")),
                                  .leaf (.validatorFailed "Type" (some "a"))]))) ∧
    runValidators requiredInteger.validators .none (some "b") =
      .error (.exodia (.agg [.leaf (.validatorFailed "Required" (some "b")),
                             .leaf (.validatorFailed "Type" (some "b"))])) := by
  refine ⟨rfl, ?_, ?_⟩ <;>
    simp [validateKwargs, fieldLoop, runValidators, runValidatorsAux, Validator.call,
          vvalidate, Field.setAttr, Field.prepare, Field.toRepr, requiredInteger,
          trivialHook, lookupStr, kindName, isinstanceL, isinstance, Field.validators,
          Field.kind, Bind.bind, Except.bind, Except.mapError]

/-! ### Claim C2 -/

/-- Claim C2 is false: construction is not atomic.  With fields
`a, b` both required integers and `a=1, b=None` supplied, `a` passes and
is committed by the in-loop `setattr`; then `b` fails and the exception
escapes — the construction fails with `a`'s value already stored on the
instance. -/
theorem c2_partial_commit_counterexample :
    validateKwargs [("a", requiredInteger), ("b", requiredInteger)] trivialHook
        [("a", .int 1), ("b", .none)] =
      ([("a", .int 1)],
       .error (.exodia (.agg [.leaf (.validatorFailed "Required" (some "b")),
                              .leaf (.validatorFailed "Type" (some "b"))]))) := by
  simp [validateKwargs, fieldLoop, runValidators, runValidatorsAux, Validator.call,
        vvalidate, Field.setAttr, Field.prepare, Field.toRepr, requiredInteger,
        trivialHook, lookupStr, kindName, isinstanceL, isinstance, Field.validators,
        Field.kind, Bind.bind, Except.bind, Except.mapError]

/-! ### Claim C7 -/

/-- Claim C7 is false: `LessThan` does not override `__eq__`, so two
`LessThan` validators with different bounds compare equal (kind-only
`isinstance` equality), where the claim requires parameterized validators
of the same kind with different parameters to be unequal. -/
theorem c7_lessThan_param_ignored_counterexample :
    veq (.lessThan (.int 1)) (.lessThan (.int 2)) = .ok true := rfl

/-! ### Claim C8 -/

/-- Claim C8: for the nested schema
`{name: required string, age: optional integer}` (whose two fields the
first two conjuncts derive from the fluent API, and whose wrapping
`Exodia` field the third derives from its constructor), validating
`{"name": "x", "age": 5}` under the bound name `obj` passes;
validating `{"age": 5}` fails with an aggregate whose leaves are
attributed to the dot-joined path `obj.name`; validating
`{"name": "x"}` passes because the missing `age` key is looked up as
`None`, which the optional field accepts. -/
theorem c8_nested_schema_validation :
    Field.required (mkBase .string) = .ok nameField ∧
    Field.optional (mkBase .integer) = .ok ageField ∧
    exodiaMake schemaC8 = .ok objField ∧
    runValidators objField.validators (.mapping [("name", .str "x"), ("age", .int 5)])
      (some "obj") = .ok () ∧
    runValidators objField.validators (.mapping [("age", .int 5)]) (some "obj") =
      .error (.exodia (.agg [.agg
        [.leaf (.validatorFailed "Required" (some "obj.name")),
         .leaf (.validatorFailed "Type" (some "obj.name"))]])) ∧
    runValidators objField.validators (.mapping [("name", .str "x")]) (some "obj") =
      .ok () := by
  refine ⟨rfl, rfl, rfl, ?_, ?_, ?_⟩ <;>
    simp [runValidators, runValidatorsAux, Validator.call, vvalidate, recurseSchema,
          objField, schemaC8, nameField, ageField, isinstanceL, isinstance, truthy,
          vget, lookupStr, dotJoin, kindName, Field.validators, Bind.bind,
          Except.bind, Except.mapError]

/-! ### Claim C9 -/

/-- A `Stack` that validates successfully ran every sub-validator without
an `ExodiaException`. -/
theorem stackLoop_ok_all (vs : List Validator) (value : Value) (fn : Option String)
    (h : stackLoop vs value fn = .ok true) :
    ∀ v ∈ vs, Validator.call v value fn = .ok () := by
  induction vs with
  | nil => intro v hv; cases hv
  | cons x rest ih =>
      intro v hv
      rw [stackLoop] at h
      cases hc : Validator.call x value fn with
      | ok u =>
          cases u
          rw [hc] at h
          cases hv with
          | head => exact hc
          | tail _ hv => exact ih h v hv
      | error o =>
          rw [hc] at h
          cases o with
          | exodia e => simp at h
          | py p => simp at h

/-- Claim C9: `Stack.validate` passes only when every sub-validator
passes, and the `Stack([GreaterThan(b), Equal(b)])` installed by
`Integer.min(b)` is unsatisfiable — no integer is both strictly greater
than and equal to `b` — so the configured field rejects every integer
with the aggregate wrapping the Stack failure. -/
theorem c9_integer_min_unsatisfiable :
    (∀ (vs : List Validator) (value : Value) (fn : Option String),
        Validator.call (.stack vs) value fn = .ok () →
        ∀ v ∈ vs, Validator.call v value fn = .ok ()) ∧
    (∀ b : Int,
        Field.intMin (mkBase .integer) b = .ok (intMinField b) ∧
        ∀ n : Int, (intMinField b).validate (.int n) =
          .error (.exodia (.agg [.leaf (.validatorFailed "Stack" Option.none)]))) := by
  constructor
  · intro vs value fn h
    cases hs : stackLoop vs value fn with
    | ok bl =>
        cases bl
        · simp [Validator.call, vvalidate, hs] at h
        · exact stackLoop_ok_all vs value fn hs
    | error p => simp [Validator.call, vvalidate, hs] at h
  · intro b
    refine ⟨rfl, fun n => ?_⟩
    rcases lt_trichotomy b n with h | h | h
    · have h1 : compare n b = .gt := compare_gt_iff_gt.mpr h
      have h2 : (n == b) = false := beq_eq_false_iff_ne.mpr (by omega)
      simp [Field.validate, Field.prepare, Field.toRepr, intMinField, Field.kind,
            Field.validators, runValidators, runValidatorsAux, Validator.call,
            vvalidate, stackLoop, isinstanceL, isinstance, pyGt, pyCmp, pyEq,
            h1, h2, kindName, Bind.bind, Except.bind, Except.mapError]
      all_goals rfl
    · have h1 : compare n b = .eq := compare_eq_iff_eq.mpr h.symm
      simp [Field.validate, Field.prepare, Field.toRepr, intMinField, Field.kind,
            Field.validators, runValidators, runValidatorsAux, Validator.call,
            vvalidate, stackLoop, isinstanceL, isinstance, pyGt, pyCmp, pyEq,
            h1, kindName, Bind.bind, Except.bind, Except.mapError]
      all_goals rfl
    · have h1 : compare n b = .lt := compare_lt_iff_lt.mpr h
      simp [Field.validate, Field.prepare, Field.toRepr, intMinField, Field.kind,
            Field.validators, runValidators, runValidatorsAux, Validator.call,
            vvalidate, stackLoop, isinstanceL, isinstance, pyGt, pyCmp, pyEq,
            h1, kindName, Bind.bind, Except.bind, Except.mapError]
      all_goals rfl

/-- Witness for C9: the `Stack` conjunct applied to a concrete passing
stack. -/
theorem c9_integer_min_unsatisfiable_witness :
    Validator.call .optional .none Option.none = .ok () :=
  c9_integer_min_unsatisfiable.1 [.optional] .none Option.none
    (by simp [Validator.call, vvalidate, stackLoop]) .optional (by simp)

/-! ### Claim C10 -/

/-- Claim C10: `NotEmpty.validate` returns `len(value) == 0`, so the
validator installed by `String.not_empty()` passes exactly on the empty
string and rejects every non-empty string — the inverse of its name. -/
theorem c10_not_empty_accepts_only_empty :
    Field.notEmptyF (mkBase .string) = .ok notEmptyString ∧
    (∀ (s : String) (fn : Option String),
        Validator.call .notEmpty (.str s) fn = .ok () ↔ s.length = 0) ∧
    (∀ s : String,
        notEmptyString.validate (.str s) = .ok (.str s) ↔ s.length = 0) := by
  refine ⟨rfl, fun s fn => ?_, fun s => ?_⟩
  · by_cases hs : s.length = 0
    · simp [Validator.call, vvalidate, pyLen, hs, Bind.bind, Except.bind]
    · have h2 : ((s.length : Int) == 0) = false :=
        beq_eq_false_iff_ne.mpr (by exact_mod_cast hs)
      simp [Validator.call, vvalidate, pyLen, h2, hs, Bind.bind, Except.bind]
  · by_cases hs : s.length = 0
    · simp [Field.validate, Field.prepare, Field.toRepr, Field.kind, Field.validators,
            notEmptyString, runValidators, runValidatorsAux, Validator.call, vvalidate,
            pyLen, isinstanceL, isinstance, hs, Bind.bind, Except.bind, Except.mapError]
    · have h2 : ((s.length : Int) == 0) = false :=
        beq_eq_false_iff_ne.mpr (by exact_mod_cast hs)
      simp [Field.validate, Field.prepare, Field.toRepr, Field.kind, Field.validators,
            notEmptyString, runValidators, runValidatorsAux, Validator.call, vvalidate,
            pyLen, isinstanceL, isinstance, h2, hs, kindName, Bind.bind, Except.bind,
            Except.mapError]

/-- Witness for C10: the validator-level and field-level equivalences at
the empty string. -/
theorem c10_not_empty_accepts_only_empty_witness :
    Validator.call .notEmpty (.str "") Option.none = .ok () ∧
    notEmptyString.validate (.str "") = .ok (.str "") :=
  ⟨(c10_not_empty_accepts_only_empty.2.1 "" Option.none).mpr rfl,
   (c10_not_empty_accepts_only_empty.2.2 "").mpr rfl⟩

/-! ### Claim C6 -/

/-- `to_repr` is the identity for every field kind except `Date`. -/
theorem toRepr_id (f : Field) (v : Value) (h : f.kind ≠ .date) :
    Field.toRepr f v = .ok v := by
  cases f with
  | mk k vs => cases k <;> simp_all [Field.toRepr, Field.kind]

/-- Claim C6, amended: validation is idempotent on canonical values for
every field whose kind is not `Date` (for those, `to_repr` is the
identity, so the canonical value is the input itself and re-validating it
returns the same result).  For `Date` the round-trip breaks — see the
counterexample. -/
theorem c6_validate_idempotent_except_date (f : Field) (x y : Value)
    (hk : f.kind ≠ .date) (h : f.validate x = .ok y) :
    y = x ∧ f.validate y = .ok y := by
  have hrep := toRepr_id f x hk
  simp only [Field.validate, Bind.bind, Except.bind, Except.mapError] at h
  cases hp : f.prepare x with
  | error p => simp [hp] at h
  | ok p =>
      simp only [hp] at h
      cases hr : runValidators f.validators p Option.none with
      | error o => simp [hr] at h
      | ok u =>
          cases u
          simp only [hr, hrep] at h
          simp at h
          subst h
          refine ⟨rfl, ?_⟩
          simp only [Field.validate, Bind.bind, Except.bind, Except.mapError, hp, hr, hrep]

/-- Claim C6 fails on `Date`: validating the string `"1970-01-01"`
returns the canonical `date(1970, 1, 1)`, but re-validating that
canonical value raises `TypeError` inside `date.fromisoformat` (the
`prepare_for_validation` of `Date` only accepts strings) instead of
passing. -/
theorem c6_date_not_idempotent_counterexample :
    (mkBase .date).validate (.str "1970-01-01") = .ok (.date 1970 1 1) ∧
    (mkBase .date).validate (.date 1970 1 1) = .error (.py .typeError) := by
  constructor
  · simp [Field.validate, Field.prepare, Field.toRepr, mkBase, runValidators,
          runValidatorsAux, Validator.call, vvalidate, dateFromIso, isinstanceL,
          isinstance, Field.validators, Field.kind, ofTypeList, Bind.bind, Except.bind,
          Except.mapError, parseDateStr]
    rfl
  · simp [Field.validate, Field.prepare, Field.toRepr, mkBase, dateFromIso, Field.kind,
          Bind.bind, Except.bind, Except.mapError]

/-- Witness for C6: the amended idempotence applied to an `Integer` field
at a concrete value. -/
theorem c6_validate_idempotent_except_date_witness :
    Value.int 3 = Value.int 3 ∧ (mkBase .integer).validate (.int 3) = .ok (.int 3) :=
  c6_validate_idempotent_except_date (mkBase .integer) (.int 3) (.int 3)
    (by simp [mkBase, Field.kind])
    (by simp [Field.validate, Field.prepare, Field.toRepr, mkBase, runValidators,
              runValidatorsAux, Validator.call, vvalidate, isinstanceL, isinstance,
              Field.validators, Field.kind, ofTypeList, Bind.bind, Except.bind,
              Except.mapError])

/-! ### Claim C5 -/

/-- On a non-`None` prepared value, the chain `[Required, Type(ts)]` of a
required field and the chain `[Optional, Type(ts + [NoneType])]` of the
otherwise-identical optional field agree exactly. -/
theorem run_reqopt_eq (ts : List Ty) (v : Value) (fn : Option String) (hv : v ≠ .none) :
    runValidators [.required, .typeIs ts] v fn =
    runValidators [.optional, .typeIs (ts ++ [.noneType])] v fn := by
  have h1 : vvalidate .required v fn = .ok true := by
    cases v
    · exact absurd rfl hv
    all_goals simp [vvalidate]
  have h2 : isinstanceL v (ts ++ [.noneType]) = isinstanceL v ts := by
    have : isinstance v .noneType = false := by
      cases v
      · exact absurd rfl hv
      all_goals rfl
    simp [isinstanceL, List.any_append, this]
  simp [runValidators, runValidatorsAux, Validator.call, vvalidate, h1, h2, kindName]

/-- Claim C5, amended: for the field kinds with identity preparation
(`String`, `Integer`, `List`, `Func`), the required baseline field fails
on `None` while the otherwise-identical optional field accepts `None`,
and on every non-`None` value the two validate identically.  For `Date`
and `DateTime` the optional field does *not* accept `None` — their
`prepare_for_validation` raises `TypeError` on it before any validator
runs (see the counterexample). -/
theorem c5_required_optional_mirror (kind : FieldKind) (hk : plainKind kind) :
    Field.required (mkBase kind) = .ok (.mk kind [.required, .typeIs (ofTypeList kind)]) ∧
    Field.optional (mkBase kind) =
      .ok (.mk kind [.optional, .typeIs (ofTypeList kind ++ [.noneType])]) ∧
    (Field.mk kind [.required, .typeIs (ofTypeList kind)]).validate .none =
      .error (.exodia (.agg [.leaf (.validatorFailed "Required" Option.none),
                             .leaf (.validatorFailed "Type" Option.none)])) ∧
    (Field.mk kind [.optional, .typeIs (ofTypeList kind ++ [.noneType])]).validate .none =
      .ok .none ∧
    (∀ v : Value, v ≠ .none →
      (Field.mk kind [.required, .typeIs (ofTypeList kind)]).validate v =
      (Field.mk kind [.optional, .typeIs (ofTypeList kind ++ [.noneType])]).validate v) := by
  obtain ⟨hreq, hopt⟩ :
      Field.required (mkBase kind) = .ok (.mk kind [.required, .typeIs (ofTypeList kind)]) ∧
      Field.optional (mkBase kind) =
        .ok (.mk kind [.optional, .typeIs (ofTypeList kind ++ [.noneType])]) := by
    rcases hk with rfl | rfl | rfl | rfl <;> exact ⟨rfl, rfl⟩
  refine ⟨hreq, hopt, ?_, ?_, ?_⟩
  · rcases hk with rfl | rfl | rfl | rfl <;>
      simp [Field.validate, Field.prepare, Field.toRepr, Field.kind, Field.validators,
            runValidators, runValidatorsAux, Validator.call, vvalidate, isinstanceL,
            isinstance, ofTypeList, kindName, Bind.bind, Except.bind, Except.mapError]
  · rcases hk with rfl | rfl | rfl | rfl <;>
      simp [Field.validate, Field.prepare, Field.toRepr, Field.kind, Field.validators,
            runValidators, runValidatorsAux, Validator.call, vvalidate, isinstanceL,
            isinstance, ofTypeList, Bind.bind, Except.bind, Except.mapError]
  · intro v hv
    rcases hk with rfl | rfl | rfl | rfl <;>
      simp only [Field.validate, Field.prepare, Field.toRepr, Field.kind,
                 Field.validators, Bind.bind, Except.bind, Except.mapError] <;>
      rw [run_reqopt_eq _ v Option.none hv]

/-- Claim C5 fails on `Date`: the optional `Date` field rejects `None`
with a `TypeError` from `date.fromisoformat(None)` rather than accepting
it. -/
theorem c5_optional_date_rejects_none_counterexample :
    Field.optional (mkBase .date) =
      .ok (.mk .date [.optional, .typeIs [.str, .dateT, .noneType]]) ∧
    (Field.mk .date [.optional, .typeIs [.str, .dateT, .noneType]]).validate .none =
      .error (.py .typeError) := by
  refine ⟨rfl, ?_⟩
  simp [Field.validate, Field.prepare, Field.kind, dateFromIso, Bind.bind, Except.bind,
        Except.mapError]

/-- Witness for C5: the amended mirror property applied to `String` at
`None` and at a concrete non-`None` value. -/
theorem c5_required_optional_mirror_witness :
    (Field.mk .string [.optional, .typeIs (ofTypeList .string ++ [.noneType])]).validate
      .none = .ok .none ∧
    (Field.mk .string [.required, .typeIs (ofTypeList .string)]).validate (.str "x") =
      (Field.mk .string [.optional, .typeIs (ofTypeList .string ++ [.noneType])]).validate
        (.str "x") :=
  ⟨(c5_required_optional_mirror .string (Or.inl rfl)).2.2.2.1,
   (c5_required_optional_mirror .string (Or.inl rfl)).2.2.2.2 (.str "x") (by simp)⟩

/-! ### Claim C3 -/

/-- The `_run_validators` loop under an error accumulator: when every
remaining validator fails with an `ExodiaException`, the run raises the
aggregate of the accumulator followed by those failures in order. -/
theorem runValidatorsAux_all_fail (value : Value) (fn : Option String) :
    ∀ (vs : List Validator) (errs : List ExErr),
      (∀ v ∈ vs, ∃ e, Validator.call v value fn = .error (.exodia e)) →
      (errs ≠ [] ∨ vs ≠ []) →
      runValidatorsAux errs vs value fn =
        .error (.exodia (.agg (errs ++ chainErrors vs value fn))) := by
  intro vs
  induction vs with
  | nil =>
      intro errs _ hne
      rcases hne with h | h
      · simp [runValidatorsAux, chainErrors, h]
      · exact absurd rfl h
  | cons v rest ih =>
      intro errs hall _
      obtain ⟨e, he⟩ := hall v (List.mem_cons_self v rest)
      rw [show runValidatorsAux errs (v :: rest) value fn =
            runValidatorsAux (errs ++ [e]) rest value fn by
          simp [runValidatorsAux, he]]
      rw [ih (errs ++ [e]) (fun w hw => hall w (List.mem_cons_of_mem v hw))
            (Or.inl (by simp))]
      simp [chainErrors, exoErrOf, he]

/-- When every validator fails, the collected list has one error per
validator. -/
theorem chainErrors_length_all_fail (value : Value) (fn : Option String) :
    ∀ vs : List Validator,
      (∀ v ∈ vs, ∃ e, Validator.call v value fn = .error (.exodia e)) →
      (chainErrors vs value fn).length = vs.length := by
  intro vs
  induction vs with
  | nil => intro; rfl
  | cons v rest ih =>
      intro hall
      obtain ⟨e, he⟩ := hall v (List.mem_cons_self v rest)
      simp [chainErrors, exoErrOf, he] at ih ⊢
      exact ih fun w hw => hall w (List.mem_cons_of_mem v hw)

/-- Claim C3: a chain of `N` validators that each independently fail on a
value runs all of them in insertion order without short-circuiting and
raises one aggregate holding exactly the `N` per-validator errors, in
insertion order (`chainErrors` collects them in list order). -/
theorem c3_chain_collects_all_failures (vs : List Validator) (value : Value)
    (fn : Option String) (hne : vs ≠ [])
    (hall : ∀ v ∈ vs, ∃ e, Validator.call v value fn = .error (.exodia e)) :
    runValidators vs value fn = .error (.exodia (.agg (chainErrors vs value fn))) ∧
    (chainErrors vs value fn).length = vs.length := by
  constructor
  · rw [runValidators, runValidatorsAux_all_fail value fn vs [] hall (Or.inr hne)]
    simp
  · exact chainErrors_length_all_fail value fn vs hall

/-- Witness for C3: a two-validator chain (`MinLength(5)`, `NotEmpty`)
where both validators fail on `"ab"`. -/
theorem c3_chain_collects_all_failures_witness :
    runValidators [.minLength 5, .notEmpty] (.str "ab") Option.none =
      .error (.exodia (.agg (chainErrors [.minLength 5, .notEmpty] (.str "ab")
        Option.none))) ∧
    (chainErrors [.minLength 5, .notEmpty] (.str "ab") Option.none).length = 2 :=
  c3_chain_collects_all_failures [.minLength 5, .notEmpty] (.str "ab") Option.none
    (by simp)
    (by
      intro v hv
      simp only [List.mem_cons, List.mem_singleton, List.not_mem_nil, or_false] at hv
      rcases hv with rfl | rfl
      · refine ⟨.leaf (.validatorFailed "MinLength" Option.none), ?_⟩
        simp only [Validator.call, vvalidate, pyLen, Bind.bind, Except.bind, kindName]
        rfl
      · refine ⟨.leaf (.validatorFailed "NotEmpty" Option.none), ?_⟩
        simp only [Validator.call, vvalidate, pyLen, Bind.bind, Except.bind, kindName]
        rfl)

/-! ### Claim C2, amended part -/

/-- The per-field loop only grows the instance `__dict__`. -/
theorem fieldLoop_mem_mono (kwargs : List (String × Value)) :
    ∀ (fields : List (String × Field)) (inst : List (String × Value))
      (errs : List ExErr) (x : String × Value),
      x ∈ inst → x ∈ (fieldLoop kwargs inst errs fields).1 := by
  intro fields
  induction fields with
  | nil => intro inst errs x hx; simpa [fieldLoop] using hx
  | cons kf rest ih =>
      intro inst errs x hx
      obtain ⟨key, fld⟩ := kf
      simp only [fieldLoop]
      cases h1 : runValidators fld.validators ((lookupStr kwargs key).getD .none)
          (some key) with
      | error o =>
          cases o with
          | py p => simpa using hx
          | exodia e =>
              cases h2 : Field.setAttr fld key ((lookupStr kwargs key).getD .none) with
              | error o2 => simpa using hx
              | ok stored => exact ih _ _ x (by simp [hx])
      | ok u =>
          cases h2 : Field.setAttr fld key ((lookupStr kwargs key).getD .none) with
          | error o2 => simpa using hx
          | ok stored => exact ih _ _ x (by simp [hx])

/-- When the per-field loop finishes without an escaping exception, every
declared field was stored through `setattr` with the canonical value of
its raw supplied value. -/
theorem fieldLoop_ok_commits (kwargs : List (String × Value)) :
    ∀ (fields : List (String × Field)) (inst : List (String × Value))
      (errs : List ExErr) (inst' : List (String × Value)) (errs' : List ExErr),
      fieldLoop kwargs inst errs fields = (inst', .ok errs') →
      ∀ kf ∈ fields, ∃ stored,
        Field.setAttr kf.2 kf.1 ((lookupStr kwargs kf.1).getD .none) = .ok stored ∧
        (kf.1, stored) ∈ inst' := by
  intro fields
  induction fields with
  | nil => intro inst errs inst' errs' h kf hkf; cases hkf
  | cons kf0 rest ih =>
      intro inst errs inst' errs' h kf hkf
      obtain ⟨key, fld⟩ := kf0
      simp only [fieldLoop] at h
      cases h1 : runValidators fld.validators ((lookupStr kwargs key).getD .none)
          (some key) with
      | error o =>
          cases o with
          | py p => simp only [h1] at h; simp at h
          | exodia e =>
              simp only [h1] at h
              cases h2 : Field.setAttr fld key ((lookupStr kwargs key).getD .none) with
              | error o2 => simp only [h2] at h; simp at h
              | ok stored =>
                  simp only [h2] at h
                  cases hkf with
                  | head =>
                      refine ⟨stored, h2, ?_⟩
                      have := fieldLoop_mem_mono kwargs rest (inst ++ [(key, stored)])
                        (errs ++ [e]) (key, stored) (by simp)
                      rw [h] at this
                      exact this
                  | tail _ hkf0 => exact ih _ _ _ _ h kf hkf0
      | ok u =>
          simp only [h1] at h
          cases h2 : Field.setAttr fld key ((lookupStr kwargs key).getD .none) with
          | error o2 => simp only [h2] at h; simp at h
          | ok stored =>
              simp only [h2] at h
              cases hkf with
              | head =>
                  refine ⟨stored, h2, ?_⟩
                  have := fieldLoop_mem_mono kwargs rest (inst ++ [(key, stored)])
                    errs (key, stored) (by simp)
                  rw [h] at this
                  exact this
              | tail _ hkf0 => exact ih _ _ _ _ h kf hkf0

/-- Claim C2, amended: construction commits values per field as the loop
proceeds, not atomically.  When construction *succeeds*, every declared
field's value was validated and committed through `setattr` as its
canonical representation; when construction fails, the values committed
before the failure remain stored (the counterexample exhibits such a
partial state). -/
theorem c2_success_commits_all (fields : List (String × Field))
    (hook : List (String × Value) → Except HookErr Unit)
    (kwargs : List (String × Value)) (inst : List (String × Value))
    (h : validateKwargs fields hook kwargs = (inst, .ok ())) :
    ∀ kf ∈ fields, ∃ stored,
      Field.setAttr kf.2 kf.1 ((lookupStr kwargs kf.1).getD .none) = .ok stored ∧
      (kf.1, stored) ∈ inst := by
  intro kf hkf
  simp only [validateKwargs] at h
  cases hfl : fieldLoop kwargs []
      (kwargs.filterMap fun kv =>
        if (lookupStr fields kv.1).isSome then Option.none
        else some (ExErr.leaf (.unexpectedAttribute kv.1))) fields with
  | mk instL r =>
      simp only [hfl] at h
      cases r with
      | error o => simp at h
      | ok errs1 =>
          have hinst : instL = inst := by
            simp only [hookStep] at h
            cases hh : hook (fields.map fun kf =>
                (kf.1, (lookupStr kwargs kf.1).getD .none)) with
            | error he => simp only [hh] at h; cases he <;> simp at h
            | ok u =>
                simp only [hh] at h
                by_cases hemp : errs1.isEmpty <;> simp [hemp] at h
                tauto
          subst hinst
          exact fieldLoop_ok_commits kwargs fields _ _ _ _ hfl kf hkf

/-- Witness for C2: a one-field schema constructed successfully, with the
committed value recovered through the amended theorem. -/
theorem c2_success_commits_all_witness :
    ∃ stored,
      Field.setAttr requiredInteger "a" ((lookupStr [("a", Value.int 1)] "a").getD .none) =
        .ok stored ∧
      ("a", stored) ∈ [("a", Value.int 1)] :=
  c2_success_commits_all [("a", requiredInteger)] trivialHook [("a", .int 1)]
    [("a", .int 1)]
    (by simp [validateKwargs, fieldLoop, hookStep, runValidators, runValidatorsAux,
              Validator.call, vvalidate, Field.setAttr, Field.prepare, Field.toRepr,
              requiredInteger, trivialHook, lookupStr, isinstanceL, isinstance,
              Field.validators, Field.kind, Bind.bind, Except.bind, Except.mapError])
    ("a", requiredInteger) (by simp)

/-! ### Claim C7, amended part -/

/-- Claim C7, amended: validator equality is the dedup key, but it is
kind-based only up to two exceptions.  Every validator equals itself;
`MinLength`, `MaxLength`, `LessThan`, `GreaterThan`, `Equal` and
`Between` compare equal to any validator of the same kind *regardless of
parameters* (they inherit `isinstance`-based `Validator.__eq__`);
`MultipleOf` compares kind and parameter; `Length` compares only the
`length` parameter with *no* kind check (so `Length(n)` equals
`MinLength(n)`) and raises `AttributeError` against validators without a
`length` attribute; and any non-`Length` validator compares unequal to
every validator of a different kind. -/
theorem c7_equality_by_kind_with_exceptions :
    (∀ a : Validator, veq a a = .ok true) ∧
    (∀ x y : Value, veq (.lessThan x) (.lessThan y) = .ok true) ∧
    (∀ x y : Value, veq (.greaterThan x) (.greaterThan y) = .ok true) ∧
    (∀ x y : Value, veq (.equal x) (.equal y) = .ok true) ∧
    (∀ a b c d : Value, veq (.between a b) (.between c d) = .ok true) ∧
    (∀ n m : Int, veq (.minLength n) (.minLength m) = .ok true) ∧
    (∀ n m : Int, veq (.maxLength n) (.maxLength m) = .ok true) ∧
    (∀ n m : Int, veq (.length n) (.minLength m) = .ok (m == n)) ∧
    (∀ n m : Int, veq (.multipleOf n) (.multipleOf m) = .ok (n == m)) ∧
    (∀ n : Int, veq (.length n) .required = .error .attributeError) ∧
    (∀ a b : Validator, (∀ n, a ≠ .length n) → kindName a ≠ kindName b →
      veq a b = .ok false) := by
  refine ⟨?_, fun x y => rfl, fun x y => rfl, fun x y => rfl, fun a b c d => rfl,
          fun n m => rfl, fun n m => rfl, fun n m => rfl, fun n m => rfl,
          fun n => rfl, ?_⟩
  · intro a
    cases a <;> simp [veq, kindName, lengthAttr]
  · intro a b ha hk
    cases a with
    | length n => exact absurd rfl (ha n)
    | multipleOf n =>
        cases b <;> first
        | exact absurd rfl hk
        | rfl
    | required => exact congrArg Except.ok (beq_eq_false_iff_ne.mpr hk)
    | optional => exact congrArg Except.ok (beq_eq_false_iff_ne.mpr hk)
    | notEmpty => exact congrArg Except.ok (beq_eq_false_iff_ne.mpr hk)
    | between a c => exact congrArg Except.ok (beq_eq_false_iff_ne.mpr hk)
    | typeIs ts => exact congrArg Except.ok (beq_eq_false_iff_ne.mpr hk)
    | enum o => exact congrArg Except.ok (beq_eq_false_iff_ne.mpr hk)
    | minLength n => exact congrArg Except.ok (beq_eq_false_iff_ne.mpr hk)
    | maxLength n => exact congrArg Except.ok (beq_eq_false_iff_ne.mpr hk)
    | lessThan v => exact congrArg Except.ok (beq_eq_false_iff_ne.mpr hk)
    | equal v => exact congrArg Except.ok (beq_eq_false_iff_ne.mpr hk)
    | greaterThan v => exact congrArg Except.ok (beq_eq_false_iff_ne.mpr hk)
    | exodia s => exact congrArg Except.ok (beq_eq_false_iff_ne.mpr hk)
    | stack vs => exact congrArg Except.ok (beq_eq_false_iff_ne.mpr hk)

/-- Witness for C7: cross-kind inequality applied at `Required` vs
`Optional`. -/
theorem c7_equality_by_kind_with_exceptions_witness :
    veq .required .optional = .ok false :=
  c7_equality_by_kind_with_exceptions.2.2.2.2.2.2.2.2.2.2 .required .optional
    (fun n => by simp) (by decide)

/-! ### Claim C4: supporting lemmas about the chain operations -/

theorem kindName_eq_required_iff (x : Validator) : kindName x = "Required" ↔ x = .required := by
  cases x <;> simp [kindName]

theorem kindName_eq_optional_iff (x : Validator) : kindName x = "Optional" ↔ x = .optional := by
  cases x <;> simp [kindName]

theorem kindName_typeIs (ts : List Ty) : kindName (.typeIs ts) = "Type" := rfl

/-- `a == b` for a non-`Length` left operand against a `Required`,
`Optional` or `Type` right operand is the `isinstance` kind test. -/
theorem veq_plain_eval (x v : Validator) (hx : ∀ n, x ≠ .length n) (hv : PlainTarget v) :
    veq x v = .ok (kindName x == kindName v) := by
  rcases hv with rfl | rfl | ⟨ts, rfl⟩ <;> cases x <;>
    first
    | exact absurd rfl (hx _)
    | rfl

theorem veq_ok_true_required (y : Validator) (h : veq y .required = .ok true) :
    y = .required := by
  cases y <;> simp_all [veq, kindName, lengthAttr]

theorem veq_ok_true_optional (y : Validator) (h : veq y .optional = .ok true) :
    y = .optional := by
  cases y <;> simp_all [veq, kindName, lengthAttr]

theorem veq_ok_false_not_length (x v : Validator) (hv : PlainTarget v)
    (h : veq x v = .ok false) :
    (∀ n, x ≠ .length n) ∧ (kindName x == kindName v) = false := by
  have hx : ∀ n, x ≠ .length n := by
    intro n hn
    subst hn
    rcases hv with rfl | rfl | ⟨ts, rfl⟩ <;> simp [veq, lengthAttr] at h
  refine ⟨hx, ?_⟩
  rw [veq_plain_eval x v hx hv] at h
  simpa using h

theorem mem_removeFirstKind (k : String) :
    ∀ (vs : List Validator) (x : Validator), x ∈ removeFirstKind k vs → x ∈ vs := by
  intro vs
  induction vs with
  | nil => intro x hx; simp [removeFirstKind] at hx
  | cons y rest ih =>
      intro x hx
      by_cases hy : (kindName y == k) = true
      · simp only [removeFirstKind, hy, if_pos] at hx
        exact List.mem_cons_of_mem y hx
      · simp only [removeFirstKind, hy, if_neg, Bool.not_eq_true] at hx
        rcases List.mem_cons.1 hx with rfl | hx0
        · exact List.mem_cons_self x rest
        · exact List.mem_cons_of_mem y (ih x hx0)

theorem mem_removeFirstKind_of_ne (k : String) :
    ∀ (vs : List Validator) (x : Validator), x ∈ vs → (kindName x == k) = false →
      x ∈ removeFirstKind k vs := by
  intro vs
  induction vs with
  | nil => intro x hx; cases hx
  | cons y rest ih =>
      intro x hx hne
      by_cases hy : (kindName y == k) = true
      · simp only [removeFirstKind, hy, if_pos]
        rcases List.mem_cons.1 hx with rfl | hx0
        · rw [hy] at hne; cases hne
        · exact hx0
      · simp only [removeFirstKind, hy, if_neg, Bool.not_eq_true]
        rcases List.mem_cons.1 hx with rfl | hx0
        · exact List.mem_cons_self x _
        · exact List.mem_cons_of_mem y (ih x hx0 hne)

theorem hasKind_false_iff (k : String) (vs : List Validator) :
    hasKind k vs = false ↔ ∀ x ∈ vs, (kindName x == k) = false := by
  simp [hasKind, List.any_eq_false]

theorem hasKind_true_of_mem (k : String) (vs : List Validator) (x : Validator)
    (hx : x ∈ vs) (hk : (kindName x == k) = true) : hasKind k vs = true := by
  simp only [hasKind, List.any_eq_true]
  exact ⟨x, hx, hk⟩

theorem removeFirstKind_append_left (k : String) :
    ∀ (xs ys : List Validator), hasKind k xs = true →
      removeFirstKind k (xs ++ ys) = removeFirstKind k xs ++ ys := by
  intro xs
  induction xs with
  | nil => intro ys h; simp [hasKind] at h
  | cons x rest ih =>
      intro ys h
      by_cases hx : (kindName x == k) = true
      · simp [removeFirstKind, hx]
      · have hrest : hasKind k rest = true := by
          simp only [hasKind, List.any_cons, Bool.or_eq_true] at h
          rcases h with h | h
          · exact absurd h hx
          · simpa [hasKind] using h
        simp [removeFirstKind, hx, ih ys hrest]

theorem removeFirstKind_append_right (k : String) :
    ∀ (xs ys : List Validator), hasKind k xs = false →
      removeFirstKind k (xs ++ ys) = xs ++ removeFirstKind k ys := by
  intro xs
  induction xs with
  | nil => intro ys _; rfl
  | cons x rest ih =>
      intro ys h
      have hx : (kindName x == k) = false :=
        (hasKind_false_iff k (x :: rest)).1 h x (List.mem_cons_self x rest)
      have hrest : hasKind k rest = false := by
        rw [hasKind_false_iff] at h ⊢
        exact fun y hy => h y (List.mem_cons_of_mem x hy)
      simp [removeFirstKind, hx, ih ys hrest]

theorem findFirstKind_append_right (k : String) :
    ∀ (xs ys : List Validator), hasKind k xs = false →
      findFirstKind k (xs ++ ys) = findFirstKind k ys := by
  intro xs
  induction xs with
  | nil => intro ys _; rfl
  | cons x rest ih =>
      intro ys h
      have hx : (kindName x == k) = false :=
        (hasKind_false_iff k (x :: rest)).1 h x (List.mem_cons_self x rest)
      have hrest : hasKind k rest = false := by
        rw [hasKind_false_iff] at h ⊢
        exact fun y hy => h y (List.mem_cons_of_mem x hy)
      simp [findFirstKind, hx, ih ys hrest]

theorem noLen_removeFirstKind (k : String) (vs : List Validator) (h : NoLen vs) :
    NoLen (removeFirstKind k vs) :=
  fun x hx => h x (mem_removeFirstKind k vs x hx)

theorem checkDup_ok_elim (v : Validator) :
    ∀ vs : List Validator, checkDup vs v = .ok () → ∀ x ∈ vs, veq x v = .ok false := by
  intro vs
  induction vs with
  | nil => intro _ x hx; cases hx
  | cons y rest ih =>
      intro h x hx
      cases hy : veq y v with
      | error e => simp [checkDup, hy] at h
      | ok b =>
          cases b
          · simp only [checkDup, hy] at h
            rcases List.mem_cons.1 hx with rfl | hx0
            · exact hy
            · exact ih h x hx0
          · simp [checkDup, hy] at h

theorem addValidator_ok_elim (vs : List Validator) (v : Validator)
    (w : List Validator) (h : addValidator vs v = .ok w) :
    w = vs ++ [v] ∧ ∀ x ∈ vs, veq x v = .ok false := by
  simp only [addValidator, Bind.bind, Except.bind] at h
  cases hc : checkDup vs v with
  | error e => rw [hc] at h; cases h
  | ok u =>
      cases u
      rw [hc] at h
      simp only [pure, Except.pure] at h
      cases h
      exact ⟨rfl, checkDup_ok_elim v vs hc⟩

theorem popValidator_plain (v : Validator) (hv : PlainTarget v) :
    ∀ vs : List Validator, NoLen vs →
      popValidator vs v =
        .ok (findFirstKind (kindName v) vs, removeFirstKind (kindName v) vs) := by
  intro vs
  induction vs with
  | nil => intro _; rfl
  | cons x rest ih =>
      intro hlen
      have hx : ∀ n, x ≠ .length n := hlen x (List.mem_cons_self x rest)
      have hrest : NoLen rest := fun y hy => hlen y (List.mem_cons_of_mem x hy)
      have hveq := veq_plain_eval x v hx hv
      cases hb : (kindName x == kindName v) with
      | true =>
          rw [hb] at hveq
          simp [popValidator, hveq, findFirstKind, removeFirstKind, hb]
      | false =>
          rw [hb] at hveq
          simp [popValidator, hveq, findFirstKind, removeFirstKind, hb, ih hrest,
                Bind.bind, Except.bind]

theorem checkDup_plain_ok (v : Validator) (hv : PlainTarget v) :
    ∀ vs : List Validator, NoLen vs → hasKind (kindName v) vs = false →
      checkDup vs v = .ok () := by
  intro vs
  induction vs with
  | nil => intro _ _; rfl
  | cons x rest ih =>
      intro hlen hhas
      have hx : ∀ n, x ≠ .length n := hlen x (List.mem_cons_self x rest)
      have hveq := veq_plain_eval x v hx hv
      have hxk : (kindName x == kindName v) = false :=
        (hasKind_false_iff _ _).1 hhas x (List.mem_cons_self x rest)
      have hrest : hasKind (kindName v) rest = false := by
        rw [hasKind_false_iff] at hhas ⊢
        exact fun y hy => hhas y (List.mem_cons_of_mem x hy)
      rw [hxk] at hveq
      simp [checkDup, hveq,
            ih (fun y hy => hlen y (List.mem_cons_of_mem x hy)) hrest]

theorem addValidator_plain_ok (v : Validator) (hv : PlainTarget v)
    (vs : List Validator) (hlen : NoLen vs) (hhas : hasKind (kindName v) vs = false) :
    addValidator vs v = .ok (vs ++ [v]) := by
  simp [addValidator, checkDup_plain_ok v hv vs hlen hhas, Bind.bind, Except.bind,
        pure, Except.pure]

theorem addValidator_plain_dup (v : Validator) (hv : PlainTarget v) :
    ∀ vs : List Validator, NoLen vs → hasKind (kindName v) vs = true →
      addValidator vs v = .error (.exodia (.leaf (.duplicateValidator (kindName v)))) := by
  intro vs
  induction vs with
  | nil => intro _ h; simp [hasKind] at h
  | cons x rest ih =>
      intro hlen hhas
      have hx : ∀ n, x ≠ .length n := hlen x (List.mem_cons_self x rest)
      have hveq := veq_plain_eval x v hx hv
      cases hb : (kindName x == kindName v) with
      | true =>
          rw [hb] at hveq
          simp [addValidator, checkDup, hveq, Bind.bind, Except.bind]
      | false =>
          rw [hb] at hveq
          have hrest : hasKind (kindName v) rest = true := by
            simp only [hasKind, List.any_cons, Bool.or_eq_true] at hhas
            rcases hhas with h | h
            · rw [hb] at h; cases h
            · simpa [hasKind] using h
          have := ih (fun y hy => hlen y (List.mem_cons_of_mem x hy)) hrest
          simp only [addValidator, Bind.bind, Except.bind] at this ⊢
          cases hc : checkDup rest v with
          | error e =>
              rw [hc] at this
              simp only [checkDup, hveq, hc]
              simpa using this
          | ok u =>
              rw [hc] at this
              simp [pure, Except.pure] at this

theorem popValidator_ok_cases (v : Validator) :
    ∀ (vs : List Validator) (res : Option Validator) (u : List Validator),
      popValidator vs v = .ok (res, u) →
      (res = Option.none ∧ u = vs ∧ ∀ x ∈ vs, veq x v = .ok false) ∨
      (∃ y l t, res = some y ∧ vs = l ++ y :: t ∧ u = l ++ t ∧
        veq y v = .ok true ∧ ∀ x ∈ l, veq x v = .ok false) := by
  intro vs
  induction vs with
  | nil =>
      intro res u h
      simp only [popValidator, Except.ok.injEq, Prod.mk.injEq] at h
      obtain ⟨rfl, rfl⟩ := h
      exact Or.inl ⟨rfl, rfl, fun x hx => absurd hx (List.not_mem_nil x)⟩
  | cons x rest ih =>
      intro res u h
      cases hveq : veq x v with
      | error e => simp [popValidator, hveq] at h
      | ok b =>
          cases b
          · simp only [popValidator, hveq, Bind.bind, Except.bind] at h
            cases hrec : popValidator rest v with
            | error e => rw [hrec] at h; cases h
            | ok pr =>
                obtain ⟨p, r⟩ := pr
                rw [hrec] at h
                simp only [pure, Except.pure, Except.ok.injEq, Prod.mk.injEq] at h
                obtain ⟨rfl, rfl⟩ := h
                rcases ih p r hrec with ⟨hp, hr, hall⟩ | ⟨y, l, t, hp, hsplit, hr, hyt, hlf⟩
                · subst hp; subst hr
                  refine Or.inl ⟨rfl, rfl, ?_⟩
                  intro z hz
                  rcases List.mem_cons.1 hz with rfl | hz0
                  · exact hveq
                  · exact hall z hz0
                · subst hp; subst hsplit; subst hr
                  refine Or.inr ⟨y, x :: l, t, rfl, rfl, rfl, hyt, ?_⟩
                  intro z hz
                  rcases List.mem_cons.1 hz with rfl | hz0
                  · exact hveq
                  · exact hlf z hz0
          · simp only [popValidator, hveq, Except.ok.injEq, Prod.mk.injEq] at h
            obtain ⟨rfl, rfl⟩ := h
            exact Or.inr ⟨x, [], rest, rfl, rfl, rfl, hveq, fun z hz => absurd hz
              (List.not_mem_nil z)⟩

theorem ne_of_kindName_beq_false {x y : Validator}
    (hb : (kindName x == kindName y) = false) : x ≠ y := by
  intro he
  subst he
  simp at hb

theorem Field.kind_mk (k : FieldKind) (vs : List Validator) :
    (Field.mk k vs).kind = k := rfl

theorem Field.validators_mk (k : FieldKind) (vs : List Validator) :
    (Field.mk k vs).validators = vs := rfl

/-- Structure of a successful `optional()` call: the four steps it takes
and the resulting validator list. -/
theorem optional_ok_elim (f g : Field) (h : Field.optional f = .ok g) :
    ∃ r0 vs1 ts vs3,
      popValidator f.validators .required = .ok (r0, vs1) ∧
      (∀ x ∈ vs1, veq x .optional = .ok false) ∧
      popValidator (vs1 ++ [.optional]) (.typeIs (ofTypeList f.kind)) =
        .ok (some (.typeIs ts), vs3) ∧
      (∀ x ∈ vs3, veq x (.typeIs (ts ++ [.noneType])) = .ok false) ∧
      g = .mk f.kind (vs3 ++ [.typeIs (ts ++ [.noneType])]) := by
  simp only [Field.optional, Bind.bind, Except.bind, Except.mapError] at h
  cases hA : popValidator f.validators .required with
  | error e => simp only [hA] at h; simp at h
  | ok pr =>
      obtain ⟨r0, vs1⟩ := pr
      simp only [hA] at h
      cases hB : addValidator vs1 .optional with
      | error e => simp only [hB] at h; simp at h
      | ok vs2 =>
          simp only [hB] at h
          obtain ⟨hvs2, hBf⟩ := addValidator_ok_elim vs1 .optional vs2 hB
          subst hvs2
          cases hC : popValidator (vs1 ++ [.optional]) (.typeIs (ofTypeList f.kind)) with
          | error e => simp only [hC] at h; simp at h
          | ok pr2 =>
              obtain ⟨tv, vs3⟩ := pr2
              simp only [hC] at h
              cases tv with
              | none => simp at h
              | some y =>
                  cases y <;> try simp at h
                  case typeIs ts =>
                    cases hD : addValidator vs3 (.typeIs (ts ++ [.noneType])) with
                    | error e => simp only [hD] at h; simp at h
                    | ok vs4 =>
                        simp only [hD] at h
                        obtain ⟨hvs4, hDf⟩ := addValidator_ok_elim _ _ _ hD
                        subst hvs4
                        simp only [pure, Except.pure, Except.ok.injEq] at h
                        exact ⟨r0, vs1, ts, vs3, rfl, hBf, hC, hDf, h.symm⟩

/-- Structure of a successful `required()` call. -/
theorem required_ok_elim (f g : Field) (h : Field.required f = .ok g) :
    ∃ r0 vs1 tv vs3,
      popValidator f.validators .optional = .ok (r0, vs1) ∧
      (∀ x ∈ vs1, veq x .required = .ok false) ∧
      popValidator (vs1 ++ [.required]) (.typeIs (ofTypeList f.kind)) =
        .ok (some tv, vs3) ∧
      (∀ x ∈ vs3, veq x (.typeIs (ofTypeList f.kind)) = .ok false) ∧
      g = .mk f.kind (vs3 ++ [.typeIs (ofTypeList f.kind)]) := by
  simp only [Field.required, Bind.bind, Except.bind, Except.mapError] at h
  cases hA : popValidator f.validators .optional with
  | error e => simp only [hA] at h; simp at h
  | ok pr =>
      obtain ⟨r0, vs1⟩ := pr
      simp only [hA] at h
      cases hB : addValidator vs1 .required with
      | error e => simp only [hB] at h; simp at h
      | ok vs2 =>
          simp only [hB] at h
          obtain ⟨hvs2, hBf⟩ := addValidator_ok_elim vs1 .required vs2 hB
          subst hvs2
          cases hC : popValidator (vs1 ++ [.required]) (.typeIs (ofTypeList f.kind)) with
          | error e => simp only [hC] at h; simp at h
          | ok pr2 =>
              obtain ⟨tv, vs3⟩ := pr2
              simp only [hC] at h
              cases tv with
              | none => simp at h
              | some y =>
                  cases hD : addValidator vs3 (.typeIs (ofTypeList f.kind)) with
                  | error e => simp only [hD] at h; simp at h
                  | ok vs4 =>
                      simp only [hD] at h
                      obtain ⟨hvs4, hDf⟩ := addValidator_ok_elim _ _ _ hD
                      subst hvs4
                      simp only [pure, Except.pure, Except.ok.injEq] at h
                      exact ⟨r0, vs1, y, vs3, rfl, hBf, hC, hDf, h.symm⟩

/-- Everything the toggling proofs need to know about the chain produced
by a successful `optional()` call. -/
theorem optional_ok_facts (f g : Field) (h : Field.optional f = .ok g) :
    ∃ vs1 ts vs3,
      g = .mk f.kind (vs3 ++ [.typeIs (ts ++ [.noneType])]) ∧
      NoLen vs1 ∧
      (∀ x ∈ vs1, x ≠ .optional) ∧
      (∀ x ∈ vs3, x ∈ vs1 ++ [Validator.optional]) ∧
      Validator.optional ∈ vs3 ∧
      hasKind "Type" vs3 = false ∧
      (WfChain f.validators → ∀ x ∈ vs1, x ≠ .required) := by
  obtain ⟨r0, vs1, ts, vs3, hA, hBf, hC, hDf, hg⟩ := optional_ok_elim f g h
  have hB1 : ∀ x ∈ vs1, (∀ n, x ≠ .length n) ∧ (kindName x == "Optional") = false :=
    fun x hx => veq_ok_false_not_length x .optional (Or.inr (Or.inl rfl)) (hBf x hx)
  have hlen1 : NoLen vs1 := fun x hx => (hB1 x hx).1
  have hnopt1 : ∀ x ∈ vs1, x ≠ .optional :=
    fun x hx => ne_of_kindName_beq_false (hB1 x hx).2
  rcases popValidator_ok_cases _ _ _ _ hC with ⟨hnone, _, _⟩ | hCr
  · cases hnone
  obtain ⟨y, l, t, hres, hsplit, hvs3, hyt, hlf⟩ := hCr
  have hy : y = .typeIs ts := by injection hres with hres0; exact hres0.symm
  subst hy
  have hmem3 : ∀ x ∈ vs3, x ∈ vs1 ++ [Validator.optional] := by
    intro x hx
    rw [hvs3] at hx
    rw [hsplit]
    rcases List.mem_append.1 hx with hx0 | hx0
    · exact List.mem_append_left _ hx0
    · exact List.mem_append_right _ (List.mem_cons_of_mem _ hx0)
  have hopt3 : Validator.optional ∈ vs3 := by
    have hin : Validator.optional ∈ vs1 ++ [Validator.optional] :=
      List.mem_append_right _ (List.mem_singleton.2 rfl)
    rw [hsplit] at hin
    rw [hvs3]
    rcases List.mem_append.1 hin with hx0 | hx0
    · exact List.mem_append_left _ hx0
    · rcases List.mem_cons.1 hx0 with heq | hx1
      · cases heq
      · exact List.mem_append_right _ hx1
  have htype3 : hasKind "Type" vs3 = false := by
    rw [hasKind_false_iff]
    intro x hx
    exact (veq_ok_false_not_length x (.typeIs (ts ++ [.noneType]))
      (Or.inr (Or.inr ⟨_, rfl⟩)) (hDf x hx)).2
  refine ⟨vs1, ts, vs3, hg, hlen1, hnopt1, hmem3, hopt3, htype3, ?_⟩
  intro hwf x hx heq
  subst heq
  rcases popValidator_ok_cases _ _ _ _ hA with ⟨_, hvseq, hallf⟩ | hAr
  · subst hvseq
    have := hallf _ hx
    simp [veq, kindName] at this
  · obtain ⟨y, l0, t0, hres0, hsplit0, hvs1, hyt0, hlf0⟩ := hAr
    have hy0 := veq_ok_true_required y hyt0
    subst hy0
    rw [hvs1] at hx
    rcases List.mem_append.1 hx with hx0 | hx0
    · have := hlf0 _ hx0
      simp [veq, kindName] at this
    · have hwf2 := hwf
      rw [hsplit0] at hwf2
      have hp := (List.pairwise_append.1 hwf2).2.1
      have := (List.pairwise_cons.1 hp).1 _ hx0
      simp [veq, kindName] at this

/-- Everything the toggling proofs need to know about the chain produced
by a successful `required()` call. -/
theorem required_ok_facts (f g : Field) (h : Field.required f = .ok g) :
    ∃ vs1 vs3,
      g = .mk f.kind (vs3 ++ [.typeIs (ofTypeList f.kind)]) ∧
      NoLen vs1 ∧
      (∀ x ∈ vs1, x ≠ .required) ∧
      (∀ x ∈ vs3, x ∈ vs1 ++ [Validator.required]) ∧
      Validator.required ∈ vs3 ∧
      hasKind "Type" vs3 = false ∧
      (WfChain f.validators → ∀ x ∈ vs1, x ≠ .optional) := by
  obtain ⟨r0, vs1, tv, vs3, hA, hBf, hC, hDf, hg⟩ := required_ok_elim f g h
  have hB1 : ∀ x ∈ vs1, (∀ n, x ≠ .length n) ∧ (kindName x == "Required") = false :=
    fun x hx => veq_ok_false_not_length x .required (Or.inl rfl) (hBf x hx)
  have hlen1 : NoLen vs1 := fun x hx => (hB1 x hx).1
  have hnreq1 : ∀ x ∈ vs1, x ≠ .required :=
    fun x hx => ne_of_kindName_beq_false (hB1 x hx).2
  rcases popValidator_ok_cases _ _ _ _ hC with ⟨hnone, _, _⟩ | hCr
  · cases hnone
  obtain ⟨y, l, t, hres, hsplit, hvs3, hyt, hlf⟩ := hCr
  have hmem3 : ∀ x ∈ vs3, x ∈ vs1 ++ [Validator.required] := by
    intro x hx
    rw [hvs3] at hx
    rw [hsplit]
    rcases List.mem_append.1 hx with hx0 | hx0
    · exact List.mem_append_left _ hx0
    · exact List.mem_append_right _ (List.mem_cons_of_mem _ hx0)
  have hyty : ∃ us, y = .typeIs us := by
    cases y <;> simp_all [veq, kindName, lengthAttr]
  have hreq3 : Validator.required ∈ vs3 := by
    have hin : Validator.required ∈ vs1 ++ [Validator.required] :=
      List.mem_append_right _ (List.mem_singleton.2 rfl)
    rw [hsplit] at hin
    rw [hvs3]
    rcases List.mem_append.1 hin with hx0 | hx0
    · exact List.mem_append_left _ hx0
    · rcases List.mem_cons.1 hx0 with heq | hx1
      · obtain ⟨us, rfl⟩ := hyty
        cases heq
      · exact List.mem_append_right _ hx1
  have htype3 : hasKind "Type" vs3 = false := by
    rw [hasKind_false_iff]
    intro x hx
    exact (veq_ok_false_not_length x (.typeIs (ofTypeList f.kind))
      (Or.inr (Or.inr ⟨_, rfl⟩)) (hDf x hx)).2
  refine ⟨vs1, vs3, hg, hlen1, hnreq1, hmem3, hreq3, htype3, ?_⟩
  intro hwf x hx heq
  subst heq
  rcases popValidator_ok_cases _ _ _ _ hA with ⟨_, hvseq, hallf⟩ | hAr
  · subst hvseq
    have := hallf _ hx
    simp [veq, kindName] at this
  · obtain ⟨y0, l0, t0, hres0, hsplit0, hvs1, hyt0, hlf0⟩ := hAr
    have hy0 := veq_ok_true_optional y0 hyt0
    subst hy0
    rw [hvs1] at hx
    rcases List.mem_append.1 hx with hx0 | hx0
    · have := hlf0 _ hx0
      simp [veq, kindName] at this
    · have hwf2 := hwf
      rw [hsplit0] at hwf2
      have hp := (List.pairwise_append.1 hwf2).2.1
      have := (List.pairwise_cons.1 hp).1 _ hx0
      simp [veq, kindName] at this

/-- `optional()` on a field already made optional fails with the
duplicate-validator error. -/
theorem optional_twice_dup (f g : Field) (h : Field.optional f = .ok g) :
    Field.optional g = .error (.exodia (.leaf (.duplicateValidator "Optional"))) := by
  obtain ⟨vs1, ts, vs3, hg, hlen1, hnopt1, hmem3, hopt3, htype3, -⟩ :=
    optional_ok_facts f g h
  subst hg
  have hlenG : NoLen (vs3 ++ [Validator.typeIs (ts ++ [.noneType])]) := by
    intro x hx n
    rcases List.mem_append.1 hx with hx0 | hx0
    · rcases List.mem_append.1 (hmem3 x hx0) with hx1 | hx1
      · exact hlen1 x hx1 n
      · rw [List.mem_singleton] at hx1; subst hx1; simp
    · rw [List.mem_singleton] at hx0; subst hx0; simp
  have hoptG : Validator.optional ∈ vs3 ++ [Validator.typeIs (ts ++ [.noneType])] :=
    List.mem_append_left _ hopt3
  have stepA := popValidator_plain .required (Or.inl rfl) _ hlenG
  simp only [kindName] at stepA
  have huMem : Validator.optional ∈
      removeFirstKind "Required" (vs3 ++ [Validator.typeIs (ts ++ [.noneType])]) :=
    mem_removeFirstKind_of_ne _ _ _ hoptG rfl
  have hulen : NoLen
      (removeFirstKind "Required" (vs3 ++ [Validator.typeIs (ts ++ [.noneType])])) :=
    noLen_removeFirstKind _ _ hlenG
  have stepB := addValidator_plain_dup .optional (Or.inr (Or.inl rfl)) _ hulen
    (hasKind_true_of_mem _ _ _ huMem rfl)
  simp only [kindName] at stepB
  simp only [Field.optional, Field.validators_mk, Field.kind_mk, Bind.bind, Except.bind,
             Except.mapError, stepA, stepB]

/-- `required()` on a field already made required fails with the
duplicate-validator error. -/
theorem required_twice_dup (f g : Field) (h : Field.required f = .ok g) :
    Field.required g = .error (.exodia (.leaf (.duplicateValidator "Required"))) := by
  obtain ⟨vs1, vs3, hg, hlen1, hnreq1, hmem3, hreq3, htype3, -⟩ :=
    required_ok_facts f g h
  subst hg
  have hlenG : NoLen (vs3 ++ [Validator.typeIs (ofTypeList f.kind)]) := by
    intro x hx n
    rcases List.mem_append.1 hx with hx0 | hx0
    · rcases List.mem_append.1 (hmem3 x hx0) with hx1 | hx1
      · exact hlen1 x hx1 n
      · rw [List.mem_singleton] at hx1; subst hx1; simp
    · rw [List.mem_singleton] at hx0; subst hx0; simp
  have hreqG : Validator.required ∈ vs3 ++ [Validator.typeIs (ofTypeList f.kind)] :=
    List.mem_append_left _ hreq3
  have stepA := popValidator_plain .optional (Or.inr (Or.inl rfl)) _ hlenG
  simp only [kindName] at stepA
  have huMem : Validator.required ∈
      removeFirstKind "Optional" (vs3 ++ [Validator.typeIs (ofTypeList f.kind)]) :=
    mem_removeFirstKind_of_ne _ _ _ hreqG rfl
  have hulen : NoLen
      (removeFirstKind "Optional" (vs3 ++ [Validator.typeIs (ofTypeList f.kind)])) :=
    noLen_removeFirstKind _ _ hlenG
  have stepB := addValidator_plain_dup .required (Or.inl rfl) _ hulen
    (hasKind_true_of_mem _ _ _ huMem rfl)
  simp only [kindName] at stepB
  simp only [Field.required, Field.validators_mk, Field.kind_mk, Bind.bind, Except.bind,
             Except.mapError, stepA, stepB]

/-- `required()` after a successful `optional()` on a well-formed chain
succeeds and replaces the `Optional` validator and the widened type
validator with `Required` and a fresh type validator for the declared
types. -/
theorem optional_then_required_ok (f g : Field) (hwf : WfChain f.validators)
    (h : Field.optional f = .ok g) :
    Field.required g = .ok (.mk f.kind
      (removeFirstKind "Type" (removeFirstKind "Optional" g.validators) ++
       [.required, .typeIs (ofTypeList f.kind)])) := by
  obtain ⟨vs1, ts, vs3, hg, hlen1, hnopt1, hmem3, hopt3, htype3, hwfreq⟩ :=
    optional_ok_facts f g h
  have hnreq1 := hwfreq hwf
  subst hg
  have hlenG : NoLen (vs3 ++ [Validator.typeIs (ts ++ [.noneType])]) := by
    intro x hx n
    rcases List.mem_append.1 hx with hx0 | hx0
    · rcases List.mem_append.1 (hmem3 x hx0) with hx1 | hx1
      · exact hlen1 x hx1 n
      · rw [List.mem_singleton] at hx1; subst hx1; simp
    · rw [List.mem_singleton] at hx0; subst hx0; simp
  have hnreqG : ∀ x ∈ vs3 ++ [Validator.typeIs (ts ++ [.noneType])],
      (kindName x == "Required") = false := by
    intro x hx
    rcases List.mem_append.1 hx with hx0 | hx0
    · rcases List.mem_append.1 (hmem3 x hx0) with hx1 | hx1
      · rw [beq_eq_false_iff_ne]
        intro hkn
        exact hnreq1 x hx1 ((kindName_eq_required_iff x).1 hkn)
      · rw [List.mem_singleton] at hx1; subst hx1; rfl
    · rw [List.mem_singleton] at hx0; subst hx0; rfl
  have stepA := popValidator_plain .optional (Or.inr (Or.inl rfl)) _ hlenG
  simp only [kindName] at stepA
  have hulen : NoLen
      (removeFirstKind "Optional" (vs3 ++ [Validator.typeIs (ts ++ [.noneType])])) :=
    noLen_removeFirstKind _ _ hlenG
  have hu_noreq : hasKind "Required"
      (removeFirstKind "Optional" (vs3 ++ [Validator.typeIs (ts ++ [.noneType])])) =
      false := by
    rw [hasKind_false_iff]
    intro x hx
    exact hnreqG x (mem_removeFirstKind _ _ _ hx)
  have stepB := addValidator_plain_ok .required (Or.inl rfl) _ hulen hu_noreq
  simp only [kindName] at stepB
  have hrfkO : removeFirstKind "Optional" (vs3 ++ [Validator.typeIs (ts ++ [.noneType])]) =
      removeFirstKind "Optional" vs3 ++ [Validator.typeIs (ts ++ [.noneType])] :=
    removeFirstKind_append_left _ _ _ (hasKind_true_of_mem _ _ _ hopt3 rfl)
  have hnoT1 : hasKind "Type" (removeFirstKind "Optional" vs3) = false := by
    rw [hasKind_false_iff]
    intro x hx
    exact (hasKind_false_iff _ _).1 htype3 x (mem_removeFirstKind _ _ _ hx)
  have hffk : findFirstKind "Type"
      (removeFirstKind "Optional" (vs3 ++ [Validator.typeIs (ts ++ [.noneType])]) ++
       [Validator.required]) = some (Validator.typeIs (ts ++ [.noneType])) := by
    rw [hrfkO, List.append_assoc, findFirstKind_append_right _ _ _ hnoT1]
    rfl
  have hrfkT : removeFirstKind "Type"
      (removeFirstKind "Optional" (vs3 ++ [Validator.typeIs (ts ++ [.noneType])]) ++
       [Validator.required]) =
      removeFirstKind "Optional" vs3 ++ [Validator.required] := by
    rw [hrfkO, List.append_assoc, removeFirstKind_append_right _ _ _ hnoT1]
    rfl
  have hlen2 : NoLen
      (removeFirstKind "Optional" (vs3 ++ [Validator.typeIs (ts ++ [.noneType])]) ++
       [Validator.required]) := by
    intro x hx n
    rcases List.mem_append.1 hx with hx0 | hx0
    · exact hulen x hx0 n
    · rw [List.mem_singleton] at hx0; subst hx0; simp
  have stepC := popValidator_plain (.typeIs (ofTypeList f.kind))
    (Or.inr (Or.inr ⟨_, rfl⟩)) _ hlen2
  simp only [kindName] at stepC
  rw [hffk, hrfkT] at stepC
  have hlen3 : NoLen (removeFirstKind "Optional" vs3 ++ [Validator.required]) := by
    intro x hx n
    rcases List.mem_append.1 hx with hx0 | hx0
    · exact hulen x (hrfkO ▸ List.mem_append_left _ hx0) n
    · rw [List.mem_singleton] at hx0; subst hx0; simp
  have hnoT2 : hasKind "Type"
      (removeFirstKind "Optional" vs3 ++ [Validator.required]) = false := by
    rw [hasKind_false_iff]
    intro x hx
    rcases List.mem_append.1 hx with hx0 | hx0
    · exact (hasKind_false_iff _ _).1 hnoT1 x hx0
    · rw [List.mem_singleton] at hx0; subst hx0; rfl
  have stepD := addValidator_plain_ok (.typeIs (ofTypeList f.kind))
    (Or.inr (Or.inr ⟨_, rfl⟩)) _ hlen3 hnoT2
  simp only [kindName] at stepD
  have hRHS : removeFirstKind "Type"
      (removeFirstKind "Optional" (vs3 ++ [Validator.typeIs (ts ++ [.noneType])])) =
      removeFirstKind "Optional" vs3 := by
    rw [hrfkO, removeFirstKind_append_right _ _ _ hnoT1]
    simp [removeFirstKind, kindName]
  simp only [Field.required, Field.validators_mk, Field.kind_mk, Bind.bind, Except.bind,
             Except.mapError, stepA, stepB, stepC, stepD, hRHS]
  all_goals simp [pure, Except.pure, List.append_assoc]

/-- `optional()` after a successful `required()` on a well-formed chain
succeeds and replaces the `Required` validator and the type validator
with `Optional` and the type validator widened by `NoneType`. -/
theorem required_then_optional_ok (f g : Field) (hwf : WfChain f.validators)
    (h : Field.required f = .ok g) :
    Field.optional g = .ok (.mk f.kind
      (removeFirstKind "Type" (removeFirstKind "Required" g.validators) ++
       [.optional, .typeIs (ofTypeList f.kind ++ [.noneType])])) := by
  obtain ⟨vs1, vs3, hg, hlen1, hnreq1, hmem3, hreq3, htype3, hwfopt⟩ :=
    required_ok_facts f g h
  have hnopt1 := hwfopt hwf
  subst hg
  have hlenG : NoLen (vs3 ++ [Validator.typeIs (ofTypeList f.kind)]) := by
    intro x hx n
    rcases List.mem_append.1 hx with hx0 | hx0
    · rcases List.mem_append.1 (hmem3 x hx0) with hx1 | hx1
      · exact hlen1 x hx1 n
      · rw [List.mem_singleton] at hx1; subst hx1; simp
    · rw [List.mem_singleton] at hx0; subst hx0; simp
  have hnoptG : ∀ x ∈ vs3 ++ [Validator.typeIs (ofTypeList f.kind)],
      (kindName x == "Optional") = false := by
    intro x hx
    rcases List.mem_append.1 hx with hx0 | hx0
    · rcases List.mem_append.1 (hmem3 x hx0) with hx1 | hx1
      · rw [beq_eq_false_iff_ne]
        intro hkn
        exact hnopt1 x hx1 ((kindName_eq_optional_iff x).1 hkn)
      · rw [List.mem_singleton] at hx1; subst hx1; rfl
    · rw [List.mem_singleton] at hx0; subst hx0; rfl
  have stepA := popValidator_plain .required (Or.inl rfl) _ hlenG
  simp only [kindName] at stepA
  have hulen : NoLen
      (removeFirstKind "Required" (vs3 ++ [Validator.typeIs (ofTypeList f.kind)])) :=
    noLen_removeFirstKind _ _ hlenG
  have hu_noopt : hasKind "Optional"
      (removeFirstKind "Required" (vs3 ++ [Validator.typeIs (ofTypeList f.kind)])) =
      false := by
    rw [hasKind_false_iff]
    intro x hx
    exact hnoptG x (mem_removeFirstKind _ _ _ hx)
  have stepB := addValidator_plain_ok .optional (Or.inr (Or.inl rfl)) _ hulen hu_noopt
  simp only [kindName] at stepB
  have hrfkR : removeFirstKind "Required" (vs3 ++ [Validator.typeIs (ofTypeList f.kind)]) =
      removeFirstKind "Required" vs3 ++ [Validator.typeIs (ofTypeList f.kind)] :=
    removeFirstKind_append_left _ _ _ (hasKind_true_of_mem _ _ _ hreq3 rfl)
  have hnoT1 : hasKind "Type" (removeFirstKind "Required" vs3) = false := by
    rw [hasKind_false_iff]
    intro x hx
    exact (hasKind_false_iff _ _).1 htype3 x (mem_removeFirstKind _ _ _ hx)
  have hffk : findFirstKind "Type"
      (removeFirstKind "Required" (vs3 ++ [Validator.typeIs (ofTypeList f.kind)]) ++
       [Validator.optional]) = some (Validator.typeIs (ofTypeList f.kind)) := by
    rw [hrfkR, List.append_assoc, findFirstKind_append_right _ _ _ hnoT1]
    rfl
  have hrfkT : removeFirstKind "Type"
      (removeFirstKind "Required" (vs3 ++ [Validator.typeIs (ofTypeList f.kind)]) ++
       [Validator.optional]) =
      removeFirstKind "Required" vs3 ++ [Validator.optional] := by
    rw [hrfkR, List.append_assoc, removeFirstKind_append_right _ _ _ hnoT1]
    rfl
  have hlen2 : NoLen
      (removeFirstKind "Required" (vs3 ++ [Validator.typeIs (ofTypeList f.kind)]) ++
       [Validator.optional]) := by
    intro x hx n
    rcases List.mem_append.1 hx with hx0 | hx0
    · exact hulen x hx0 n
    · rw [List.mem_singleton] at hx0; subst hx0; simp
  have stepC := popValidator_plain (.typeIs (ofTypeList f.kind))
    (Or.inr (Or.inr ⟨_, rfl⟩)) _ hlen2
  simp only [kindName] at stepC
  rw [hffk, hrfkT] at stepC
  have hlen3 : NoLen (removeFirstKind "Required" vs3 ++ [Validator.optional]) := by
    intro x hx n
    rcases List.mem_append.1 hx with hx0 | hx0
    · exact hulen x (hrfkR ▸ List.mem_append_left _ hx0) n
    · rw [List.mem_singleton] at hx0; subst hx0; simp
  have hnoT2 : hasKind "Type"
      (removeFirstKind "Required" vs3 ++ [Validator.optional]) = false := by
    rw [hasKind_false_iff]
    intro x hx
    rcases List.mem_append.1 hx with hx0 | hx0
    · exact (hasKind_false_iff _ _).1 hnoT1 x hx0
    · rw [List.mem_singleton] at hx0; subst hx0; rfl
  have stepD := addValidator_plain_ok (.typeIs (ofTypeList f.kind ++ [.noneType]))
    (Or.inr (Or.inr ⟨_, rfl⟩)) _ hlen3 hnoT2
  simp only [kindName] at stepD
  have hRHS : removeFirstKind "Type"
      (removeFirstKind "Required" (vs3 ++ [Validator.typeIs (ofTypeList f.kind)])) =
      removeFirstKind "Required" vs3 := by
    rw [hrfkR, removeFirstKind_append_right _ _ _ hnoT1]
    simp [removeFirstKind, kindName]
  simp only [Field.optional, Field.validators_mk, Field.kind_mk, Bind.bind, Except.bind,
             Except.mapError, stepA, stepB, stepC, stepD, hRHS]
  all_goals simp [pure, Except.pure, List.append_assoc]

/-! ### Claim C4 -/

/-- Claim C4: on every Field, calling the same mutually-exclusive-state
method twice in a row fails at schema-definition time with the
duplicate-validator `ExodiaException` (unconditionally — the first call
guarantees the marker validator is present), while calling `required()`
after `optional()` (or vice versa) on a chain satisfying the
`_add_validator` no-duplicates invariant succeeds and leaves exactly the
latter state's semantics active: the prior state's `Required`/`Optional`
validator and type validator are removed and replaced by the new marker
and the appropriate type validator (declared types only for `required()`,
widened by `NoneType` for `optional()`), the rest of the chain kept in
order. -/
theorem c4_state_toggle_last_call_wins :
    (∀ f g : Field, Field.optional f = .ok g →
      Field.optional g = .error (.exodia (.leaf (.duplicateValidator "Optional")))) ∧
    (∀ f g : Field, Field.required f = .ok g →
      Field.required g = .error (.exodia (.leaf (.duplicateValidator "Required")))) ∧
    (∀ f g : Field, WfChain f.validators → Field.optional f = .ok g →
      Field.required g = .ok (.mk f.kind
        (removeFirstKind "Type" (removeFirstKind "Optional" g.validators) ++
         [.required, .typeIs (ofTypeList f.kind)]))) ∧
    (∀ f g : Field, WfChain f.validators → Field.required f = .ok g →
      Field.optional g = .ok (.mk f.kind
        (removeFirstKind "Type" (removeFirstKind "Required" g.validators) ++
         [.optional, .typeIs (ofTypeList f.kind ++ [.noneType])]))) :=
  ⟨optional_twice_dup, required_twice_dup,
   fun f g hwf h => optional_then_required_ok f g hwf h,
   fun f g hwf h => required_then_optional_ok f g hwf h⟩

/-- Witness for C4: all four parts applied to the baseline `String()`
field. -/
theorem c4_state_toggle_last_call_wins_witness :
    Field.optional (Field.mk .string [.optional, .typeIs [.str, .noneType]]) =
      .error (.exodia (.leaf (.duplicateValidator "Optional"))) ∧
    Field.required (Field.mk .string [.required, .typeIs [.str]]) =
      .error (.exodia (.leaf (.duplicateValidator "Required"))) ∧
    Field.required (Field.mk .string [.optional, .typeIs [.str, .noneType]]) =
      .ok (.mk .string
        (removeFirstKind "Type" (removeFirstKind "Optional"
          (Field.validators (.mk .string [.optional, .typeIs [.str, .noneType]]))) ++
         [.required, .typeIs (ofTypeList .string)])) ∧
    Field.optional (Field.mk .string [.required, .typeIs [.str]]) =
      .ok (.mk .string
        (removeFirstKind "Type" (removeFirstKind "Required"
          (Field.validators (.mk .string [.required, .typeIs [.str]]))) ++
         [.optional, .typeIs (ofTypeList .string ++ [.noneType])])) :=
  ⟨c4_state_toggle_last_call_wins.1 (mkBase .string) _ rfl,
   c4_state_toggle_last_call_wins.2.1 (mkBase .string) _ rfl,
   c4_state_toggle_last_call_wins.2.2.1 (mkBase .string) _
     (by simp [WfChain, mkBase, Field.validators]) rfl,
   c4_state_toggle_last_call_wins.2.2.2 (mkBase .string) _
     (by simp [WfChain, mkBase, Field.validators]) rfl⟩

end Exodia
